import Mathlib

/-!
Shallow embedding of the OpenEra schema-curation server
(`src/server/openera/db.py`, `src/server/openera/util.py`).

Documents are stored as JSON in sqlite rows.  The embedding models a row's
`data` column directly as a structured `Doc` value (serialization with
`json.dumps` / parsing with `json.loads` round-trips, so the string level is
elided).  The SDF document shape itself (`sdf.Document`) is generated code
that is not under `src/`; the `Doc` structure below is modelled from the
spec's data model (§3): a top-level identifier and the four ordered
collections, with events carrying participants and children.  Fallible
database operations return `Except`; raising an exception inside
`do_transaction` rolls the transaction back, which the embedding renders as
returning `.error` (no state is produced, i.e. the pre-state survives).
-/

namespace OpenEra

/-- Participant of an event: references an entity or event by `entity`,
bound by `roleName`.  String fields other than `atId` are the fields the
untyped `sub_id` walk can rewrite. -/
structure Participant where
  atId : String
  roleName : String
  entity : String
  wd_node : Option String := none
  deriving DecidableEq, Repr

/-- Child entry of an event's `children` list. -/
structure Child where
  child : String
  deriving DecidableEq, Repr

/-- Event element: identifier, name, optional external-taxonomy node and
cached label, participants and sub-event children. -/
structure Event where
  atId : String
  name : String
  wd_node : Option String := none
  wd_label : Option String := none
  participants : List Participant := []
  children : List Child := []
  deriving DecidableEq, Repr

/-- Entity element.  `isSchemaArg` flattens `privateData.isSchemaArg`. -/
structure Entity where
  atId : String
  name : String
  isSchemaArg : Bool := false
  deriving DecidableEq, Repr

/-- Relation element; `wd_label` is the cached external-taxonomy label the
renumbering pass derives relation names from. -/
structure Relation where
  atId : String
  wd_label : String
  relationSubject : String
  relationObject : String
  deriving DecidableEq, Repr

/-- Instance element (the optional `instances` collection walked by
`fix_atIds`). -/
structure Inst where
  atId : String
  name : String
  deriving DecidableEq, Repr

/-- Provenance element of the `provenanceData` collection. -/
structure Prov where
  atId : String
  provenanceName : String
  deriving DecidableEq, Repr

/-- Modelled from the spec: an SDF document (`sdf.Document`), a graph with a
top-level identifier and the ordered collections `events`, `entities`,
`relations`, `provenanceData` (plus the optional `instances` collection that
`fix_atIds` also renumbers). -/
structure Doc where
  atId : String
  events : List Event := []
  entities : List Entity := []
  relations : List Relation := []
  instances : List Inst := []
  provenanceData : List Prov := []
  deriving DecidableEq, Repr

/-! ## Document store rows (`SchemasTableRow`) -/

/-- One row of the `Schema` table: identifier, lease timestamp, lease
holder, document content, quarantine flag (0/1) and quarantine note. -/
structure Row where
  atId : String
  lock_ts : Option Int := none
  holder_id : Option String := none
  data : Doc
  quarantined : Nat := 0
  note : Option String := none
  deriving DecidableEq, Repr

/-- The document store: the `Schema` table in row order. -/
abbrev DbState := List Row

/-- Errors raised by the transactional operations (`falcon.HTTPNotFound`,
`falcon.HTTPConflict`, and the defensive `RuntimeError` in `set_lock`). -/
inductive DbErr where
  | notFoundErr
  | conflictErr
  | runtimeErr
  deriving DecidableEq, Repr

/-- `LOCK_LIFETIME`: how long a write lock lasts on a schema (seconds). -/
def LOCK_LIFETIME : Int := 20

/-- Look a row up by primary key: `SELECT ... FROM Schema WHERE atId=?`,
first row of the result. -/
def findRow (s : DbState) (schema_id : String) : Option Row :=
  s.find? (fun r => r.atId == schema_id)

/-- Lease-validity test from `set_lock`:
`lock_ts is not None and _unix_now() - lock_ts <= LOCK_LIFETIME`. -/
def lockIsValid (now : Int) (r : Row) : Bool :=
  match r.lock_ts with
  | none => false
  | some ts => now - ts ≤ LOCK_LIFETIME

/-- A row can be locked (or released) by `client_id`: the guard in
`set_lock` does not raise `HTTPConflict`. -/
def lockableBy (now : Int) (client_id : String) (r : Row) : Bool :=
  !(lockIsValid now r && !(r.holder_id == some client_id))

/-- `Transaction.set_lock(acquire, schema_id, client_id)`: acquire
(`acquire = true`) or release (`acquire = false`) a lock.  Raises NotFound
when the schema does not exist and Conflict when another client holds a
non-expired lock; otherwise updates `lock_ts`/`holder_id` on every row
matching the id (the defensive `rowcount != 1` check raises `RuntimeError`).
All `_unix_now()` samples within one call are modelled by the single
parameter `now`. -/
def set_lock (now : Int) (acquire : Bool) (schema_id client_id : String)
    (s : DbState) : Except DbErr DbState :=
  match findRow s schema_id with
  | none => .error .notFoundErr
  | some row =>
    if lockIsValid now row && !(row.holder_id == some client_id) then
      .error .conflictErr
    else if (s.filter (fun r => r.atId == schema_id)).length ≠ 1 then
      .error .runtimeErr
    else
      .ok (s.map fun r =>
        if r.atId == schema_id then
          { r with lock_ts := if acquire then some now else none,
                   holder_id := if acquire then some client_id else none }
        else r)

/-- `get_lock_holder(schema_id)`: the stored `holder_id` of the first
matching row, `None` when the row is absent. -/
def get_lock_holder (schema_id : String) (s : DbState) : Option String :=
  match findRow s schema_id with
  | none => none
  | some r => r.holder_id

/-! ## Schema writes and rename propagation -/

/-- Trailing `/`-separated segment of an identifier
(`new_id.split("/")[-1]`). -/
def lastSegment (s : String) : String :=
  (s.splitOn "/").getLastD ""

/-- Does a document reference `old_id` as a subschema, i.e. does any of its
events carry `wd_node == old_id`?  This is the referrer test of
`_change_referring_schemas`. -/
def refersTo (old_id : String) (d : Doc) : Bool :=
  d.events.any fun e => e.wd_node == some old_id

/-- Referrer rewrite of `_change_referring_schemas`: every event whose
`wd_node` equals the old identifier gets `wd_node` set to the new one and
`wd_label` re-derived from the new identifier's trailing segment. -/
def rewriteReferrer (old_id new_id : String) (d : Doc) : Doc :=
  { d with events := d.events.map fun e =>
      if e.wd_node == some old_id then
        { e with wd_node := some new_id,
                 wd_label := some (lastSegment new_id) }
      else e }

/-- Referring-schema scan: `SELECT data FROM Schema WHERE quarantined = 0`
followed by the events filter in `_change_referring_schemas`. -/
def referringSchemas (old_id : String) (s : DbState) : List Doc :=
  ((s.filter fun r => r.quarantined == 0).map Row.data).filter
    (refersTo old_id)

/-- The UPDATE of `write_schema`:
`UPDATE Schema SET data=:data, atId=:dataAtId, quarantined=0 WHERE
atId=:atId`. -/
def updateSchemaRow (schema_id : String) (sdf_data : Doc) (s : DbState) :
    DbState :=
  s.map fun r =>
    if r.atId == schema_id then
      { r with data := sdf_data, atId := sdf_data.atId, quarantined := 0 }
    else r

/-- `Transaction.write_schema` specialized to the case
`sdf_data["@id"] = schema_id` (no rename).  This is the only form reached
by the recursive `write_schema` call inside `_change_referring_schemas`:
there `write_schema(ref_data["@id"], ref_data, client_id)` passes the
document's own identifier, so the nested
`_change_referring_schemas(old, old, ...)` returns immediately and the
body reduces to `set_lock` followed by the UPDATE. -/
def write_schema_same (now : Int) (schema_id : String) (sdf_data : Doc)
    (client_id : String) (s : DbState) : Except DbErr DbState :=
  match set_lock now true schema_id client_id s with
  | .error e => .error e
  | .ok s1 => .ok (updateSchemaRow schema_id sdf_data s1)

/-- Lock-acquisition loop of `_change_referring_schemas`: lock every
referring schema before any is rewritten; the first failure raises
Conflict and rolls the whole transaction back. -/
def lockAll (now : Int) (client_id : String) (ids : List String)
    (s : DbState) : Except DbErr DbState :=
  match ids with
  | [] => .ok s
  | id :: rest =>
      match set_lock now true id client_id s with
      | .error e => .error e
      | .ok s1 => lockAll now client_id rest s1

/-- Rewrite-and-persist loop of `_change_referring_schemas`: each referring
document captured by the scan is re-pointed to the new identifier and
written back under the already-held lock. -/
def writeReferrers (now : Int) (old_id new_id client_id : String)
    (docs : List Doc) (s : DbState) : Except DbErr DbState :=
  match docs with
  | [] => .ok s
  | d :: rest =>
      match write_schema_same now (rewriteReferrer old_id new_id d).atId
        (rewriteReferrer old_id new_id d) client_id s with
      | .error e => .error e
      | .ok s1 => writeReferrers now old_id new_id client_id rest s1

/-- `Transaction._change_referring_schemas(old_id, new_id, client_id)`:
no-op when the identifier is unchanged; otherwise collect every
non-quarantined referring schema, lock them all, then rewrite and persist
each one. -/
def change_referring_schemas (now : Int) (old_id new_id client_id : String)
    (s : DbState) : Except DbErr DbState :=
  if old_id == new_id then .ok s
  else
    match lockAll now client_id
        ((referringSchemas old_id s).map Doc.atId) s with
    | .error e => .error e
    | .ok s1 =>
        writeReferrers now old_id new_id client_id
          (referringSchemas old_id s) s1

/-- `Transaction.write_schema(schema_id, sdf_data, client_id)`: re-acquire
the lease (idempotent when already held), propagate a top-level identifier
change to every referring schema, then persist the new content, clearing
the quarantine flag. -/
def write_schema (now : Int) (schema_id : String) (sdf_data : Doc)
    (client_id : String) (s : DbState) : Except DbErr DbState :=
  match set_lock now true schema_id client_id s with
  | .error e => .error e
  | .ok s1 =>
      match change_referring_schemas now schema_id sdf_data.atId
          client_id s1 with
      | .error e => .error e
      | .ok s2 => .ok (updateSchemaRow schema_id sdf_data s2)

/-- Lease columns written by a successful acquisition. -/
def lockRow (now : Int) (client_id : String) (r : Row) : Row :=
  { r with lock_ts := some now, holder_id := some client_id }

/-- Per-row effect of a successful rename (`write_schema` with
`sdf_data.atId ≠ schema_id`): the target row gets the new content, new
identifier, a cleared quarantine flag and the caller's lease; every
non-quarantined referring row is re-pointed to the new identifier and
keeps the caller's lease; everything else is untouched. -/
def renamedRow (now : Int) (schema_id : String) (sdf_data : Doc)
    (client_id : String) (r : Row) : Row :=
  if r.atId == schema_id then
    { r with data := sdf_data, atId := sdf_data.atId, quarantined := 0,
             lock_ts := some now, holder_id := some client_id }
  else if r.quarantined == 0 && refersTo schema_id r.data then
    { r with data := rewriteReferrer schema_id sdf_data.atId r.data,
             quarantined := 0,
             lock_ts := some now, holder_id := some client_id }
  else r

/-- Per-row effect of acquiring the lease on one key. -/
def lockIfKey (now : Int) (c schema_id : String) (r : Row) : Row :=
  if r.atId == schema_id then lockRow now c r else r

/-- Per-row effect of the lock-acquisition loop over a set of keys. -/
def lockIfMem (now : Int) (c : String) (ids : List String) (r : Row) : Row :=
  if ids.contains r.atId then lockRow now c r else r

/-- Per-row effect of a no-rename write under the caller's lease
(`set_lock` followed by the UPDATE, on the same key). -/
def writeRowKey (now : Int) (c schema_id : String) (d : Doc) (r : Row) :
    Row :=
  if r.atId == schema_id then
    { lockRow now c r with data := d, atId := d.atId, quarantined := 0 }
  else r

/-- Per-row effect of the referrer rewrite-and-persist loop: the row whose
key matches one of the captured referring documents receives that
document's rewritten content. -/
def writeRowMem (now : Int) (old_id new_id c : String) (docs : List Doc)
    (r : Row) : Row :=
  match docs.find? (fun d => d.atId == r.atId) with
  | some d =>
      { lockRow now c r with
          data := rewriteReferrer old_id new_id d
          atId := (rewriteReferrer old_id new_id d).atId
          quarantined := 0 }
  | none => r

/-! ## Composition: reads, subschema inlining, digests -/

/-- Read-path errors of `get_schema` (`falcon.HTTPNotFound`,
`util.ValidationError`). -/
inductive ReadErr where
  | notFoundRead
  | validationRead
  deriving DecidableEq, Repr

/-- Row selection of `package_schemas` and `zip_schemas`:
`SELECT data FROM Schema where atId IN (...)`.  The SQL has no
quarantine condition. -/
def selectSchemas (schema_ids : List String) (s : DbState) : List Row :=
  s.filter fun r => schema_ids.contains r.atId

/-- The composition input set of `package_schemas`: every selected row's
content is parsed and validated by `loads_sdf`, and rows whose content
fails validation are silently skipped (`except ValidationError:
continue`).  `V` stands for `util.validate_type` against the generated
`sdf.Document` pydantic model, which is generated code not under `src/`,
so it is taken as a parameter; the quarantine flag is never read. -/
def packageInput (V : Doc → Bool) (schema_ids : List String)
    (s : DbState) : List Doc :=
  ((selectSchemas schema_ids s).map Row.data).filter V

/-- `get_schema(schema_id, no_validate)`: fetch one row by key (again
without any quarantine condition); with `no_validate` the raw content is
returned, otherwise it is validated by `loads_sdf`. -/
def get_schema (V : Doc → Bool) (schema_id : String) (no_validate : Bool)
    (s : DbState) : Except ReadErr Doc :=
  match findRow s schema_id with
  | none => .error .notFoundRead
  | some r =>
      if no_validate then .ok r.data
      else if V r.data then .ok r.data
      else .error .validationRead

/-- Errors of `delete_schema`: the Conflict refusal, or an error escaping
the validating `get_schema` call inside the refusal branch. -/
inductive DelErr where
  | conflictDel
  | readDel (e : ReadErr)
  deriving DecidableEq, Repr

/-- `Transaction.delete_schema(schema_id, client_id)` (db.py 312-325):
when the recorded `holder_id` is neither the caller nor `None`, the code
first fetches the schema with a validating `get_schema(schema_id)` call
(to describe it in the Conflict message) and only then raises Conflict —
so an error raised by that read (in particular `ValidationError` for
non-validating stored content) escapes instead of the Conflict;
otherwise `DELETE FROM Schema WHERE atId=?` runs.  Lease validity is
never consulted. -/
def delete_schema (V : Doc → Bool) (schema_id client_id : String)
    (s : DbState) : Except DelErr DbState :=
  if get_lock_holder schema_id s = some client_id ∨
      get_lock_holder schema_id s = none then
    .ok (s.filter (fun r => !(r.atId == schema_id)))
  else
    match get_schema V schema_id false s with
    | .error e => .error (.readDel e)
    | .ok _ => .error .conflictDel

/-- One run of the unused-argument pruning loop of `inject_subschemas`
(db.py lines 418-423), fuelled because the loop need not terminate.
`j` starts at 0; each iteration either performs `del ps[j]` when the
participant references an unused formal argument, or advances the cursor
by `j += i` where `i` is the index of the OUTER while loop over the
library's events — exactly as written in the source.  `none` means the
fuel ran out with the loop still running. -/
def pruneParticipants (fuel : Nat) (i : Nat) (unused_args : List String)
    (j : Nat) (ps : List Participant) : Option (List Participant) :=
  match fuel with
  | 0 => none
  | fuel + 1 =>
    if h : j < ps.length then
      if unused_args.contains (ps.get ⟨j, h⟩).entity then
        pruneParticipants fuel i unused_args j (ps.eraseIdx j)
      else
        pruneParticipants fuel i unused_args (j + i) ps
    else some ps

/-- Errors of the root-event determination in `inject_subschemas`: the
structural `ValueError` (multiple roots) and the `IndexError` raised by
`list(all_roots)[0]` on an empty set. -/
inductive CompErr where
  | structuralErr
  | indexErr
  deriving DecidableEq, Repr

/-- `all_roots = all_events - all_children` of `inject_subschemas`
(db.py lines 429-436); Python sets are modelled as first-occurrence-order
deduplicated lists. -/
def allRootEvents (events : List Event) : List String :=
  ((events.map Event.atId).dedup).filter fun a =>
    !(((events.flatMap fun e => e.children).map Child.child).contains a)

/-- Root selection of `inject_subschemas` (db.py lines 437-441): more
than one root raises the structural `ValueError`; otherwise the code
indexes `list(all_roots)[0]`, which on zero roots raises `IndexError`
rather than the structural error. -/
def pickSubschemaRoot (events : List Event) : Except CompErr String :=
  let roots := allRootEvents events
  if roots.length > 1 then .error .structuralErr
  else
    match roots with
    | [] => .error .indexErr
    | r :: _ => .ok r

/-- The alphabet of `digest_to_base62`. -/
def base62Alphabet : List Char :=
  "0123456789ABCDEFGHIJKLMNOPQRSTUVWXYZabcdefghijklmnopqrstuvwxyz".data

/-- `n = sum(x * 2 ** (8 * i) for i, x in enumerate(b))` in
`digest_to_base62`: little-endian byte interpretation. -/
def bytesToNat (b : List Nat) : Nat :=
  (b.enum.map fun p => p.2 * 2 ^ (8 * p.1)).sum

/-- The while loop of `digest_to_base62`: emit `alphabet[n % 62]`, then
divide — a little-endian positional expansion. -/
def base62Loop (n : Nat) (acc : String) : String :=
  if n > 0 then
    base62Loop (n / 62) (acc.push (base62Alphabet.getD (n % 62) '0'))
  else acc
termination_by n
decreasing_by exact Nat.div_lt_self (by omega) (by omega)

/-- `digest_to_base62(b)`. -/
def digest_to_base62 (b : List Nat) : String :=
  base62Loop (bytesToNat b) ""

/-- `schemas = sorted(schemas, key=lambda x: x["@id"])` in
`package_schemas`. -/
def sortSchemas (ds : List Doc) : List Doc :=
  ds.mergeSort fun a b => a.atId ≤ b.atId

/-- The content digest that seeds the synthesized library's name in
`package_schemas`: fetch and validate the requested documents, sort them
by identifier, serialize each canonically (`json.dumps`, parameter
`serialize`), hash the concatenation (`hashlib.blake2b`, parameter `H`
returning the digest bytes) and render the digest in base 62. -/
def libraryDigest (H : String → List Nat) (serialize : Doc → String)
    (V : Doc → Bool) (schema_ids : List String) (s : DbState) : String :=
  digest_to_base62
    (H (String.join ((sortSchemas (packageInput V schema_ids s)).map
      serialize)))

/-! ## Identifier renumbering: `util.sub_id` and `util.fix_atIds` -/

/-- `sub_id` on one string field: the value is replaced when it equals
the target (the field's key is not `"@id"`). -/
def subStr (target repl s : String) : String :=
  if s == target then repl else s

/-- `sub_id` on an optional string field. -/
def subOptStr (target repl : String) (s : Option String) : Option String :=
  s.map (subStr target repl)

/-- `util.sub_id` on a participant: every field except `@id`. -/
def subIdPart (t r : String) (p : Participant) : Participant :=
  { p with roleName := subStr t r p.roleName,
           entity := subStr t r p.entity,
           wd_node := subOptStr t r p.wd_node }

/-- `util.sub_id` on a child entry. -/
def subIdChild (t r : String) (c : Child) : Child :=
  { c with child := subStr t r c.child }

/-- `util.sub_id` on an event: every field except `@id`, recursing into
participants and children. -/
def subIdEvent (t r : String) (e : Event) : Event :=
  { e with name := subStr t r e.name,
           wd_node := subOptStr t r e.wd_node,
           wd_label := subOptStr t r e.wd_label,
           participants := e.participants.map (subIdPart t r),
           children := e.children.map (subIdChild t r) }

/-- `util.sub_id` on an entity. -/
def subIdEntity (t r : String) (x : Entity) : Entity :=
  { x with name := subStr t r x.name }

/-- `util.sub_id` on a relation. -/
def subIdRelation (t r : String) (x : Relation) : Relation :=
  { x with wd_label := subStr t r x.wd_label,
           relationSubject := subStr t r x.relationSubject,
           relationObject := subStr t r x.relationObject }

/-- `util.sub_id` on an instance. -/
def subIdInst (t r : String) (x : Inst) : Inst :=
  { x with name := subStr t r x.name }

/-- `util.sub_id` on a provenance element. -/
def subIdProv (t r : String) (x : Prov) : Prov :=
  { x with provenanceName := subStr t r x.provenanceName }

/-- `util.sub_id(obj, target, replacement)`: the recursive walk replaces
every occurrence of `target` in a non-`@id` field with `replacement`;
`@id` values themselves (including the document's own) are skipped by the
`k != "@id"` guard. -/
def sub_id (t r : String) (d : Doc) : Doc :=
  { d with events := d.events.map (subIdEvent t r),
           entities := d.entities.map (subIdEntity t r),
           relations := d.relations.map (subIdRelation t r),
           instances := d.instances.map (subIdInst t r),
           provenanceData := d.provenanceData.map (subIdProv t r) }

/-- Decimal digit characters of `n`, most significant first (empty for
0). -/
def decChars (n : Nat) : List Char :=
  ((Nat.digits 10 n).reverse).map Nat.digitChar

/-- Python's `f"{n:05d}"`: the decimal representation left-padded with
zeros to width 5 (for `n = 0` the digit list is empty and the padding
alone yields `"00000"`, as in Python). -/
def pad5 (n : Nat) : String :=
  String.mk (List.replicate (5 - (decChars n).length) '0' ++ decChars n)

/-- The sequential identifier format of `fix_atIds`:
`f"cmu:{ke_type}/{counter:05d}/{name}"`. -/
def mkSeqId (keType : String) (counter : Nat) (name : String) : String :=
  "cmu:" ++ keType ++ "/" ++ pad5 counter ++ "/" ++ name

/-- One step of the `Entities` pass of `fix_atIds`: read the element at
index `i`, derive its name (`x["name"].replace(" ", "_")`), assign the
fresh sequential identifier, then run `sub_id` over the whole document so
references follow. -/
def fixEntityAt (c i : Nat) (d : Doc) : Doc :=
  match d.entities[i]? with
  | none => d
  | some x =>
      let newId := mkSeqId "Entities" c (x.name.replace " " "_")
      sub_id x.atId newId
        { d with entities := d.entities.set i { x with atId := newId } }

/-- One step of the `Events` pass of `fix_atIds`. -/
def fixEventAt (c i : Nat) (d : Doc) : Doc :=
  match d.events[i]? with
  | none => d
  | some x =>
      let newId := mkSeqId "Events" c (x.name.replace " " "_")
      sub_id x.atId newId
        { d with events := d.events.set i { x with atId := newId } }

/-- One step of the `Relations` pass of `fix_atIds` (the name derives
from `x["wd_label"]`). -/
def fixRelationAt (c i : Nat) (d : Doc) : Doc :=
  match d.relations[i]? with
  | none => d
  | some x =>
      let newId := mkSeqId "Relations" c (x.wd_label.replace " " "_")
      sub_id x.atId newId
        { d with relations := d.relations.set i { x with atId := newId } }

/-- One step of the `Instances` pass of `fix_atIds`. -/
def fixInstAt (c i : Nat) (d : Doc) : Doc :=
  match d.instances[i]? with
  | none => d
  | some x =>
      let newId := mkSeqId "Instances" c (x.name.replace " " "_")
      sub_id x.atId newId
        { d with instances := d.instances.set i { x with atId := newId } }

/-- One step of the `Participants` pass of `fix_atIds`: the participant
at path `(event i, participant j)`; its name derives from the current
value of `x["entity"].split("/")[-1]`. -/
def fixParticipantAt (c : Nat) (ij : Nat × Nat) (d : Doc) : Doc :=
  match d.events[ij.1]? with
  | none => d
  | some ev =>
      match ev.participants[ij.2]? with
      | none => d
      | some p =>
          let newId := mkSeqId "Participants" c (lastSegment p.entity)
          let p' := { p with atId := newId }
          let ev' := { ev with participants := ev.participants.set ij.2 p' }
          sub_id p.atId newId { d with events := d.events.set ij.1 ev' }

/-- One pass of `fix_for_ke_type`: process indices `0, …, n-1` in order,
the shared counter advancing by one per element. -/
def fixPhase (stepAt : Nat → Nat → Doc → Doc) (c0 n : Nat) (d : Doc) :
    Doc :=
  (List.range n).foldl (fun acc i => stepAt (c0 + i) i acc) d

/-- Participant paths of a participants-per-event shape: all `(i, j)` in
flattening order. -/
def pathsOfShape (ns : List Nat) : List (Nat × Nat) :=
  (List.range ns.length).flatMap fun i =>
    (List.range (ns.getD i 0)).map fun j => (i, j)

/-- The participants-per-event shape of a document. -/
def participantShape (d : Doc) : List Nat :=
  d.events.map fun e => e.participants.length

/-- The flattened participant collection of the `Participants` pass:
`[p for event in events if "participants" in event for p in
event["participants"]]`, as paths. -/
def participantPaths (d : Doc) : List (Nat × Nat) :=
  pathsOfShape (participantShape d)

/-- The `Participants` pass of `fix_atIds`: the flattened participant
list is processed in order, the counter advancing per participant. -/
def fixParticipantsPhase (c0 : Nat) (d : Doc) : Doc :=
  (participantPaths d).enum.foldl
    (fun acc kij => fixParticipantAt (c0 + kij.1) kij.2 acc) d

/-- `util.fix_atIds(lib)` in sequential mode (`use_uuids = False`): one
counter runs across the five passes Entities, Events, Relations,
Instances, Participants; each element receives
`cmu:{Kind}/{counter:05d}/{name}` and `sub_id` immediately rewrites the
old identifier's other occurrences throughout the document. -/
def fix_atIds (d : Doc) : Doc :=
  let d1 := fixPhase fixEntityAt 0 d.entities.length d
  let d2 := fixPhase fixEventAt d.entities.length d1.events.length d1
  let d3 := fixPhase fixRelationAt
    (d.entities.length + d1.events.length) d2.relations.length d2
  let d4 := fixPhase fixInstAt
    (d.entities.length + d1.events.length + d2.relations.length)
    d3.instances.length d3
  fixParticipantsPhase
    (d.entities.length + d1.events.length + d2.relations.length +
      d3.instances.length) d4

/-- Typed model of `util.collect_ids`: every `@id` value occurring in the
document, the top-level one included. -/
def collect_ids (d : Doc) : List String :=
  d.atId ::
    ((d.events.flatMap fun e =>
        e.atId :: e.participants.map Participant.atId) ++
      d.entities.map Entity.atId ++
      d.relations.map Relation.atId ++
      d.instances.map Inst.atId ++
      d.provenanceData.map Prov.atId)

/-- The identifiers assigned by the five renumbering passes, in counter
order: entities, events, relations, instances, then participants
flattened per event. -/
def renumberedIds (d : Doc) : List String :=
  d.entities.map Entity.atId ++ d.events.map Event.atId ++
    d.relations.map Relation.atId ++ d.instances.map Inst.atId ++
    (d.events.flatMap fun e => e.participants.map Participant.atId)

/-- The participant `@id` at a path, with a default off the document. -/
def partAtIdAt (d : Doc) (ij : Nat × Nat) : String :=
  match d.events[ij.1]? with
  | none => ""
  | some e =>
      match e.participants[ij.2]? with
      | none => ""
      | some p => p.atId

/-- The five kind tags used by `fix_atIds`. -/
def keTypes : List String :=
  ["Entities", "Events", "Relations", "Instances", "Participants"]

/-- The fixed prefix of a sequential identifier up to and including the
slash before the counter. -/
def ktHeader (keType : String) : String :=
  "cmu:" ++ keType ++ "/"

/-- Big-endian decimal reading of a character list (inverse of the
zero-padded rendering, used to show the padding is injective). -/
def parseDec (l : List Char) : Nat :=
  l.foldl (fun a ch => 10 * a + (ch.toNat - 48)) 0

/-- Two character lists disagree at some position defined in both. -/
def charClash (a b : List Char) : Bool :=
  (List.range (min a.length b.length)).any fun k =>
    !(a.getD k ' ' == b.getD k ' ')

/-- Observation record for the renumbering proofs: every `@id` column of
a document plus the participants-per-event shape. -/
structure DocIds where
  ents : List String
  evs : List String
  rels : List String
  insts : List String
  provs : List String
  parts : List String
  shape : List Nat
  deriving DecidableEq, Repr

/-- All `@id` columns of a document, bundled. -/
def docIds (d : Doc) : DocIds :=
  { ents := d.entities.map Entity.atId
    evs := d.events.map Event.atId
    rels := d.relations.map Relation.atId
    insts := d.instances.map Inst.atId
    provs := d.provenanceData.map Prov.atId
    parts := d.events.flatMap fun e => e.participants.map Participant.atId
    shape := participantShape d }

/-! ## Concrete stores used by witnesses and counterexamples -/

/-- Document with two provenance elements sharing one identifier, the
second also holding a reference to an entity that does not exist; the
renumbering passes never visit `provenanceData`, so the duplicate and the
dangling reference both survive. -/
def dupProvDoc : Doc :=
  { atId := "cmu:Schema/d"
    provenanceData :=
      [{ atId := "cmu:Provenance/p", provenanceName := "a" },
       { atId := "cmu:Provenance/p",
         provenanceName := "cmu:Entities/nowhere" }] }

/-- Participant bound to a used argument (kept by a correct pruning
pass). -/
def pKeep : Participant :=
  { atId := "cmu:Participants/1", roleName := "agent",
    entity := "cmu:Entities/keep" }

/-- Participant referencing the unused formal argument
`cmu:Entities/u`. -/
def pUnused : Participant :=
  { atId := "cmu:Participants/2", roleName := "victim",
    entity := "cmu:Entities/u" }

/-- Two events forming a cycle: each is the other's child, so the
subschema has zero root events. -/
def cycleEvents : List Event :=
  [{ atId := "cmu:Events/1", name := "a",
     children := [{ child := "cmu:Events/2" }] },
   { atId := "cmu:Events/2", name := "b",
     children := [{ child := "cmu:Events/1" }] }]

/-- Two events with a unique root (`cmu:Events/1`). -/
def oneRootEvents : List Event :=
  [{ atId := "cmu:Events/1", name := "a",
     children := [{ child := "cmu:Events/2" }] },
   { atId := "cmu:Events/2", name := "b" }]

/-- A contentless document used by demonstration stores. -/
def blankDoc (id : String) : Doc := { atId := id }

/-- Store with a single unlocked document. -/
def oneRowState : DbState :=
  [{ atId := "cmu:Schema/w", data := blankDoc "cmu:Schema/w" }]

/-- Store with a single document whose lease was acquired by holder `A` at
time 100. -/
def leasedByA : DbState :=
  [{ atId := "cmu:Schema/a", lock_ts := some 100, holder_id := some "A",
     data := blankDoc "cmu:Schema/a" }]

/-- Store with a single document whose lease was acquired by holder `A` at
time 0 (long expired by time 1000). -/
def staleLeaseByA : DbState :=
  [{ atId := "cmu:Schema/a", lock_ts := some 0, holder_id := some "A",
     data := blankDoc "cmu:Schema/a" }]

/-- Store containing a single quarantined document. -/
def quarantinedRowState : DbState :=
  [{ atId := "cmu:Schema/q", data := blankDoc "cmu:Schema/q",
     quarantined := 1, note := some "Not Valid SDF" }]

/-- Target document of the rename demonstration. -/
def renameTargetDoc : Doc := { atId := "cmu:Schema/t" }

/-- Renamed content for the rename demonstration. -/
def renameNewDoc : Doc := { atId := "cmu:Schema/t2" }

/-- A document whose event references the rename target as a subschema. -/
def renameReferrerDoc : Doc :=
  { atId := "cmu:Schema/r"
    events := [{ atId := "cmu:Events/1", name := "e",
                 wd_node := some "cmu:Schema/t", wd_label := some "t" }] }

/-- Store with the rename target and one referring document, both
unlocked and non-quarantined. -/
def renameState : DbState :=
  [{ atId := "cmu:Schema/t", data := renameTargetDoc },
   { atId := "cmu:Schema/r", data := renameReferrerDoc }]

/-- Structural-recursion form of the `Participants` pass fold: process
the given paths in order, the counter advancing by one per path. -/
def runParts (c0 : Nat) (ps : List (Nat × Nat)) (d : Doc) : Doc :=
  match ps with
  | [] => d
  | p :: rest => runParts (c0 + 1) rest (fixParticipantAt c0 p d)

/-- A small fully-populated document exercising `fix_atIds`: one entity,
one event with one participant, one relation, one instance and one
provenance element. -/
def wFixDoc : Doc :=
  { atId := "cmu:Schema/w"
    events := [{ atId := "id2", name := "ev one",
                 participants := [{ atId := "id5", roleName := "agent",
                                    entity := "id1" }] }]
    entities := [{ atId := "id1", name := "ent one" }]
    relations := [{ atId := "id3", wd_label := "rel one",
                    relationSubject := "id1", relationObject := "id2" }]
    instances := [{ atId := "id4", name := "inst one" }]
    provenanceData := [{ atId := "id6", provenanceName := "prov" }] }

/-- Document with the participant at path `(i, j)` of event `ev` replaced
by `q` (abbreviation for the record update of the `Participants` step). -/
def setPartDoc (d : Doc) (i j : Nat) (ev : Event) (q : Participant) : Doc :=
  let ev2 := { ev with participants := ev.participants.set j q }
  { d with events := d.events.set i ev2 }

/-! # Theorems -/

/-- With distinct primary keys, a found row is matched by exactly one row,
so the defensive `rowcount != 1` check in `set_lock` never fires. -/
theorem filter_key_length_one (s : DbState) (schema_id : String) (r : Row)
    (hkeys : (s.map Row.atId).Nodup) (hfind : findRow s schema_id = some r) :
    (s.filter (fun x => x.atId == schema_id)).length = 1 := by
  induction s with
  | nil => simp [findRow] at hfind
  | cons a t ih =>
    simp only [List.map_cons, List.nodup_cons] at hkeys
    by_cases h : a.atId = schema_id
    · have hnil : t.filter (fun x => x.atId == schema_id) = [] := by
        apply List.filter_eq_nil_iff.mpr
        intro x hx
        simp only [beq_iff_eq]
        intro hxid
        exact hkeys.1 (h ▸ hxid ▸ List.mem_map_of_mem Row.atId hx)
      simp [List.filter_cons, h, hnil]
    · have hfind' : findRow t schema_id = some r := by
        simpa [findRow, List.find?_cons, h] using hfind
      simpa [List.filter_cons, h] using ih hkeys.2 hfind'

/-- Characterization of `set_lock` shared by the acquire and release
claims: NotFound exactly on a missing row, Conflict exactly on a valid
foreign lease, and otherwise the lease columns of the target row are
overwritten according to `acquire`. -/
theorem set_lock_spec (now : Int) (acquire : Bool)
    (schema_id client_id : String) (s : DbState)
    (hkeys : (s.map Row.atId).Nodup) :
    (set_lock now acquire schema_id client_id s = .error .notFoundErr ↔
      findRow s schema_id = none) ∧
    (set_lock now acquire schema_id client_id s = .error .conflictErr ↔
      ∃ r, findRow s schema_id = some r ∧ lockIsValid now r = true ∧
        r.holder_id ≠ some client_id) ∧
    (∀ r, findRow s schema_id = some r → lockableBy now client_id r = true →
      set_lock now acquire schema_id client_id s =
        .ok (s.map fun x =>
          if x.atId == schema_id then
            { x with lock_ts := if acquire then some now else none,
                     holder_id := if acquire then some client_id else none }
          else x)) := by
  cases hfind : findRow s schema_id with
  | none =>
      refine ⟨by simp [set_lock, hfind], ?_, ?_⟩
      · constructor
        · intro h
          simp [set_lock, hfind] at h
        · rintro ⟨r, hr, -, -⟩
          exact Option.noConfusion hr
      · intro r hr
        exact Option.noConfusion hr
  | some r =>
      have hcount := filter_key_length_one s schema_id r hkeys hfind
      have hconf : (lockIsValid now r && !(r.holder_id == some client_id)) = true →
          set_lock now acquire schema_id client_id s = .error .conflictErr := by
        intro hg
        simp [set_lock, hfind, hg]
      have hok : (lockIsValid now r && !(r.holder_id == some client_id)) = false →
          set_lock now acquire schema_id client_id s =
            .ok (s.map fun x =>
              if x.atId == schema_id then
                { x with lock_ts := if acquire then some now else none,
                         holder_id := if acquire then some client_id else none }
              else x) := by
        intro hg
        simp [set_lock, hfind, hg, hcount]
      by_cases hb : (lockIsValid now r && !(r.holder_id == some client_id)) = true
      · have heq := hconf hb
        have hparts : lockIsValid now r = true ∧ r.holder_id ≠ some client_id := by
          simpa using hb
        have hv := hparts.1
        have hh := hparts.2
        refine ⟨by rw [heq]; simp, ?_, ?_⟩
        · rw [heq]
          exact ⟨fun _ => ⟨r, rfl, hv, hh⟩, fun _ => rfl⟩
        · intro r' hr' hlock
          have hrr : r = r' := by injection hr'
          subst hrr
          simp [lockableBy, hb] at hlock
      · have hbf : (lockIsValid now r && !(r.holder_id == some client_id)) = false := by
          revert hb
          cases lockIsValid now r && !(r.holder_id == some client_id) <;> simp
        have heq := hok hbf
        refine ⟨by rw [heq]; simp, ?_, ?_⟩
        · rw [heq]
          constructor
          · intro h
            exact Except.noConfusion h
          · rintro ⟨r', hr', hv, hh⟩
            have hrr : r = r' := by injection hr'
            subst hrr
            have hg : (lockIsValid now r && !(r.holder_id == some client_id)) = true := by
              simp [hv, hh]
            rw [hbf] at hg
            exact Bool.noConfusion hg
        · intro r' hr' hlock
          have hrr : r = r' := by injection hr'
          subst hrr
          exact heq

/-- C2: `acquire(id, holder)` (`set_lock` with `acquire=True`) fails with
NotFound exactly when no document with the identifier exists, fails with
Conflict exactly when a lease within the TTL is held by a different holder,
and in every other case succeeds, setting the lease's holder to the caller
and its timestamp to the current time (so the single `holder_id` column
records at most one holder at a time). -/
theorem set_lock_acquire_spec (now : Int) (schema_id client_id : String)
    (s : DbState) (hkeys : (s.map Row.atId).Nodup) :
    (set_lock now true schema_id client_id s = .error .notFoundErr ↔
      findRow s schema_id = none) ∧
    (set_lock now true schema_id client_id s = .error .conflictErr ↔
      ∃ r, findRow s schema_id = some r ∧ lockIsValid now r = true ∧
        r.holder_id ≠ some client_id) ∧
    (∀ r, findRow s schema_id = some r → lockableBy now client_id r = true →
      set_lock now true schema_id client_id s =
        .ok (s.map fun x =>
          if x.atId == schema_id then
            { x with lock_ts := some now, holder_id := some client_id }
          else x)) := by
  simpa using set_lock_spec now true schema_id client_id s hkeys

/-- Witness for C2: on a one-document unlocked store, holder `A` acquires
the lease and the row records holder `A` at time 50. -/
theorem set_lock_acquire_spec_witness :
    set_lock 50 true "cmu:Schema/w" "A" oneRowState =
      .ok [{ atId := "cmu:Schema/w", lock_ts := some 50,
             holder_id := some "A", data := blankDoc "cmu:Schema/w" }] := by
  have h := (set_lock_acquire_spec 50 "cmu:Schema/w" "A" oneRowState
    (by decide)).2.2 { atId := "cmu:Schema/w", data := blankDoc "cmu:Schema/w" }
    (by decide) (by decide)
  simpa [oneRowState] using h

/-- Counterexample to C6: release is not unconditional.  Holder `A`
acquired the lease at time 100; at time 100 (well within the TTL) holder
`B`'s release attempt raises Conflict instead of clearing the lease,
because `set_lock` applies the same valid-foreign-lease guard to releases
as to acquisitions. -/
theorem release_foreign_valid_lease_conflict_cex :
    set_lock 100 false "cmu:Schema/a" "B" leasedByA = .error .conflictErr := by
  rfl

/-- C6 (amended): `release(id, holder)` (`set_lock` with `acquire=False`)
clears the lease's holder and timestamp whenever no lease is valid, the
lease has expired, or the caller is the recorded holder; but when a valid
(unexpired) lease is held by a different holder, release fails with
Conflict — the same precondition as acquisition, not unconditional. -/
theorem set_lock_release_spec (now : Int) (schema_id client_id : String)
    (s : DbState) (hkeys : (s.map Row.atId).Nodup) :
    (set_lock now false schema_id client_id s = .error .notFoundErr ↔
      findRow s schema_id = none) ∧
    (set_lock now false schema_id client_id s = .error .conflictErr ↔
      ∃ r, findRow s schema_id = some r ∧ lockIsValid now r = true ∧
        r.holder_id ≠ some client_id) ∧
    (∀ r, findRow s schema_id = some r → lockableBy now client_id r = true →
      set_lock now false schema_id client_id s =
        .ok (s.map fun x =>
          if x.atId == schema_id then
            { x with lock_ts := none, holder_id := none }
          else x)) := by
  simpa using set_lock_spec now false schema_id client_id s hkeys

/-- Witness for the amended C6: the lease holder itself releases a valid
lease, clearing both lease columns. -/
theorem set_lock_release_spec_witness :
    set_lock 100 false "cmu:Schema/a" "A" leasedByA =
      .ok [{ atId := "cmu:Schema/a", lock_ts := none, holder_id := none,
             data := blankDoc "cmu:Schema/a" }] := by
  have h := (set_lock_release_spec 100 "cmu:Schema/a" "A" leasedByA
    (by decide)).2.2
    { atId := "cmu:Schema/a", lock_ts := some 100, holder_id := some "A",
      data := blankDoc "cmu:Schema/a" }
    (by decide) (by decide)
  simpa [leasedByA] using h

/-- Counterexample to C7: a document whose only lease has exceeded the
lease TTL is not deletable by a different holder.  The lease of holder
`A` was acquired at time 0, so at time 1000 its age exceeds
`LOCK_LIFETIME`, yet holder `B`'s delete is refused because
`delete_schema` compares only the stored `holder_id` and never consults
the timestamp; the refusal surfaces as Conflict when the stored content
validates and as the `get_schema` validation error when it does not. -/
theorem delete_expired_foreign_lease_cex :
    delete_schema (fun _ => true) "cmu:Schema/a" "B" staleLeaseByA =
      .error .conflictDel ∧
    delete_schema (fun _ => false) "cmu:Schema/a" "B" staleLeaseByA =
      .error (.readDel .validationRead) ∧
    ∀ r, findRow staleLeaseByA "cmu:Schema/a" = some r →
      lockIsValid 1000 r = false := by
  refine ⟨rfl, rfl, ?_⟩
  intro r hr
  have hrr :
      ({ atId := "cmu:Schema/a", lock_ts := some 0, holder_id := some "A",
         data := blankDoc "cmu:Schema/a" } : Row) = r := by
    injection hr
  subst hrr
  rfl

/-- C7 (amended): `delete(id, holder)` succeeds exactly when the recorded
lease holder is the caller or no holder is recorded at all (including the
case of a missing row); lease validity and the TTL are irrelevant.  When
a different holder is recorded, the row exists and the refusal first runs
a validating read of the stored content: the delete fails with Conflict
if the content validates and with the read's validation error otherwise.
The last conjunct makes the TTL-independence explicit: the outcome is
invariant under arbitrary rewrites of every lease timestamp. -/
theorem delete_schema_spec (V : Doc → Bool) (schema_id client_id : String)
    (s : DbState) (f : Row → Option Int) :
    (delete_schema V schema_id client_id s =
        .ok (s.filter (fun r => !(r.atId == schema_id))) ↔
      (get_lock_holder schema_id s = some client_id ∨
        get_lock_holder schema_id s = none)) ∧
    (∀ r, findRow s schema_id = some r →
      ¬(get_lock_holder schema_id s = some client_id ∨
        get_lock_holder schema_id s = none) →
      delete_schema V schema_id client_id s =
        .error (if V r.data then DelErr.conflictDel
          else DelErr.readDel .validationRead)) ∧
    ((delete_schema V schema_id client_id
        (s.map fun r => { r with lock_ts := f r })).isOk =
      (delete_schema V schema_id client_id s).isOk) := by
  have hholder : get_lock_holder schema_id
      (s.map fun r => { r with lock_ts := f r }) =
      get_lock_holder schema_id s := by
    unfold get_lock_holder findRow
    rw [List.find?_map]
    have hpred : ((fun (r : Row) => r.atId == schema_id) ∘
        fun (r : Row) => ({ r with lock_ts := f r } : Row)) =
        (fun (r : Row) => r.atId == schema_id) := by
      funext r
      rfl
    rw [hpred]
    cases h : s.find? (fun r => r.atId == schema_id) <;> simp [h]
  have hfail : ∀ (t : DbState),
      ¬(get_lock_holder schema_id t = some client_id ∨
        get_lock_holder schema_id t = none) →
      (delete_schema V schema_id client_id t).isOk = false := by
    intro t ht
    simp only [delete_schema, if_neg ht]
    cases hg : get_schema V schema_id false t <;>
      simp [Except.isOk, Except.toBool]
  refine ⟨?_, ?_, ?_⟩
  · by_cases h : get_lock_holder schema_id s = some client_id ∨
        get_lock_holder schema_id s = none
    · simp [delete_schema, h]
    · constructor
      · intro hc
        have hko := hfail s h
        rw [hc] at hko
        simp [Except.isOk, Except.toBool] at hko
      · intro hc
        exact absurd hc h
  · intro r hr h
    simp only [delete_schema, if_neg h, get_schema, hr]
    by_cases hv : V r.data <;> simp [hv]
  · by_cases h : get_lock_holder schema_id s = some client_id ∨
        get_lock_holder schema_id s = none
    · simp [delete_schema, h, hholder, Except.isOk, Except.toBool]
    · rw [hfail _ (by rw [hholder]; exact h), hfail _ h]

/-- Row lookup commutes with any key-preserving per-row map. -/
theorem findRow_map (f : Row → Row) (hf : ∀ r, (f r).atId = r.atId)
    (s : DbState) (schema_id : String) :
    findRow (s.map f) schema_id = (findRow s schema_id).map f := by
  unfold findRow
  rw [List.find?_map]
  have hpred : ((fun r => r.atId == schema_id) ∘ f) =
      (fun r => r.atId == schema_id) := by
    funext r
    simp [Function.comp, hf]
  rw [hpred]

/-- Key-preserving per-row maps keep the key column of the whole table. -/
theorem keys_map (f : Row → Row) (hf : ∀ r, (f r).atId = r.atId)
    (s : DbState) : (s.map f).map Row.atId = s.map Row.atId := by
  rw [List.map_map]
  exact List.map_congr_left fun r _ => hf r

/-- The row map applied by a successful `set_lock` preserves keys. -/
theorem lockIf_preserves_atId (now : Int) (acq : Bool) (id c : String)
    (r : Row) :
    ((fun r =>
      if r.atId == id then
        { r with lock_ts := if acq then some now else none,
                 holder_id := if acq then some c else none }
      else r) r).atId = r.atId := by
  by_cases h : (r.atId == id) = true <;> simp [h]

/-- Shape of a successful `set_lock`: the result is the input with the
lease columns of the matching rows overwritten. -/
theorem set_lock_ok_shape (now : Int) (acq : Bool) (id c : String)
    (s s' : DbState) (h : set_lock now acq id c s = .ok s') :
    s' = s.map fun r =>
      if r.atId == id then
        { r with lock_ts := if acq then some now else none,
                 holder_id := if acq then some c else none }
      else r := by
  cases hf : findRow s id with
  | none => simp [set_lock, hf] at h
  | some row =>
    by_cases hg : (lockIsValid now row && !(row.holder_id == some c)) = true
    · simp [set_lock, hf, hg] at h
    · by_cases hc : (s.filter (fun r => r.atId == id)).length = 1
      · simp [set_lock, hf, hg, hc] at h
        simpa using h.symm
      · simp [set_lock, hf, hg, hc] at h

/-- A successful `set_lock` implies the row was found. -/
theorem set_lock_ok_find (now : Int) (acq : Bool) (id c : String)
    (s s' : DbState) (h : set_lock now acq id c s = .ok s') :
    ∃ row, findRow s id = some row := by
  cases hf : findRow s id with
  | none => simp [set_lock, hf] at h
  | some row => exact ⟨row, rfl⟩

/-- A successful `set_lock` preserves the key column. -/
theorem set_lock_ok_keys (now : Int) (acq : Bool) (id c : String)
    (s s' : DbState) (h : set_lock now acq id c s = .ok s') :
    s'.map Row.atId = s.map Row.atId := by
  rw [set_lock_ok_shape now acq id c s s' h]
  exact keys_map _ (lockIf_preserves_atId now acq id c) s

/-- The UPDATE of `write_schema` preserves the key column when the new
content keeps the row's identifier. -/
theorem updateSchemaRow_keys (id : String) (d : Doc) (s : DbState)
    (hd : d.atId = id) :
    (updateSchemaRow id d s).map Row.atId = s.map Row.atId := by
  unfold updateSchemaRow
  apply keys_map
  intro r
  by_cases hr : (r.atId == id) = true
  · have hrid : r.atId = id := by simpa using hr
    simp [hr, hd, hrid]
  · simp [hr]

/-- A successful no-rename write (`write_schema_same`) preserves the key
column. -/
theorem write_schema_same_ok_keys (now : Int) (id : String) (d : Doc)
    (c : String) (s s' : DbState) (hd : d.atId = id)
    (h : write_schema_same now id d c s = .ok s') :
    s'.map Row.atId = s.map Row.atId := by
  cases hsl : set_lock now true id c s with
  | error e => simp [write_schema_same, hsl] at h
  | ok s1 =>
    simp only [write_schema_same, hsl] at h
    have h1 : s' = updateSchemaRow id d s1 := by
      exact (Except.ok.inj h).symm
    rw [h1, updateSchemaRow_keys id d s1 hd]
    exact set_lock_ok_keys now true id c s s1 hsl

/-- A successful lock-acquisition loop preserves the key column. -/
theorem lockAll_ok_keys (now : Int) (c : String) (ids : List String)
    (s s' : DbState) (h : lockAll now c ids s = .ok s') :
    s'.map Row.atId = s.map Row.atId := by
  induction ids generalizing s with
  | nil =>
      simp [lockAll] at h
      rw [h]
  | cons id rest ih =>
      cases hsl : set_lock now true id c s with
      | error e => simp [lockAll, hsl] at h
      | ok s1 =>
          simp only [lockAll, hsl] at h
          rw [ih s1 h]
          exact set_lock_ok_keys now true id c s s1 hsl

/-- A successful referrer-write loop preserves the key column. -/
theorem writeReferrers_ok_keys (now : Int) (old_id new_id c : String)
    (docs : List Doc) (s s' : DbState)
    (h : writeReferrers now old_id new_id c docs s = .ok s') :
    s'.map Row.atId = s.map Row.atId := by
  induction docs generalizing s with
  | nil =>
      simp [writeReferrers] at h
      rw [h]
  | cons d rest ih =>
      cases hw : write_schema_same now (rewriteReferrer old_id new_id d).atId
          (rewriteReferrer old_id new_id d) c s with
      | error e => simp [writeReferrers, hw] at h
      | ok s1 =>
          simp only [writeReferrers, hw] at h
          rw [ih s1 h]
          exact write_schema_same_ok_keys now _ _ c s s1 rfl hw

/-- A successful rename propagation preserves the key column. -/
theorem change_referring_ok_keys (now : Int) (old_id new_id c : String)
    (s s' : DbState)
    (h : change_referring_schemas now old_id new_id c s = .ok s') :
    s'.map Row.atId = s.map Row.atId := by
  by_cases hid : (old_id == new_id) = true
  · simp [change_referring_schemas, hid] at h
    rw [h]
  · simp only [change_referring_schemas, hid, Bool.false_eq_true, if_false] at h
    cases hl : lockAll now c ((referringSchemas old_id s).map Doc.atId) s with
    | error e => rw [hl] at h; exact Except.noConfusion h
    | ok s1 =>
        rw [hl] at h
        rw [writeReferrers_ok_keys now old_id new_id c _ s1 s' h]
        exact lockAll_ok_keys now c _ s s1 hl

/-- C10: a successful `write_schema` unconditionally clears the quarantine
flag of the target row: the result contains a row carrying the new
identifier whose content is the written document and whose `quarantined`
column is 0, whatever it was before. -/
theorem write_schema_clears_quarantine (now : Int) (schema_id : String)
    (sdf_data : Doc) (client_id : String) (s s' : DbState)
    (h : write_schema now schema_id sdf_data client_id s = .ok s') :
    ∃ r ∈ s', r.atId = sdf_data.atId ∧ r.data = sdf_data ∧
      r.quarantined = 0 := by
  cases hsl : set_lock now true schema_id client_id s with
  | error e => simp [write_schema, hsl] at h
  | ok s1 =>
    cases hcr : change_referring_schemas now schema_id sdf_data.atId
        client_id s1 with
    | error e => simp [write_schema, hsl, hcr] at h
    | ok s2 =>
        simp only [write_schema, hsl, hcr] at h
        have hs' : s' = updateSchemaRow schema_id sdf_data s2 :=
          (Except.ok.inj h).symm
        obtain ⟨row, hrow⟩ := set_lock_ok_find now true schema_id client_id
          s s1 hsl
        have hmem : schema_id ∈ s.map Row.atId := by
          have hr := List.mem_of_find?_eq_some hrow
          have hid : row.atId = schema_id := by
            have := List.find?_some hrow
            simpa using this
          exact hid ▸ List.mem_map_of_mem Row.atId hr
        have hkeys2 : s2.map Row.atId = s.map Row.atId := by
          rw [change_referring_ok_keys now schema_id sdf_data.atId client_id
            s1 s2 hcr]
          exact set_lock_ok_keys now true schema_id client_id s s1 hsl
        have hmem2 : schema_id ∈ s2.map Row.atId := hkeys2 ▸ hmem
        obtain ⟨r2, hr2mem, hr2id⟩ := List.mem_map.mp hmem2
        have htarget :
            ({ r2 with data := sdf_data
                       atId := sdf_data.atId
                       quarantined := 0 } : Row) ∈
              updateSchemaRow schema_id sdf_data s2 := by
          unfold updateSchemaRow
          have hcond : (if r2.atId == schema_id then
              ({ r2 with data := sdf_data
                         atId := sdf_data.atId
                         quarantined := 0 } : Row)
            else r2) = { r2 with data := sdf_data
                                 atId := sdf_data.atId
                                 quarantined := 0 } := by
            simp [hr2id]
          rw [← hcond]
          exact List.mem_map_of_mem _ hr2mem
        refine ⟨{ r2 with data := sdf_data
                          atId := sdf_data.atId
                          quarantined := 0 }, ?_, rfl, rfl, rfl⟩
        rw [hs']
        exact htarget

/-- Witness for C10: writing fresh content to a quarantined document
succeeds and the stored row comes back with `quarantined = 0`. -/
theorem write_schema_clears_quarantine_witness :
    ∃ r ∈ (updateSchemaRow "cmu:Schema/q" (blankDoc "cmu:Schema/q")
        [{ atId := "cmu:Schema/q", lock_ts := some 50,
           holder_id := some "A", data := blankDoc "cmu:Schema/q",
           quarantined := 1, note := some "Not Valid SDF" }]),
      r.atId = (blankDoc "cmu:Schema/q").atId ∧
      r.data = blankDoc "cmu:Schema/q" ∧ r.quarantined = 0 := by
  have h := write_schema_clears_quarantine 50 "cmu:Schema/q"
    (blankDoc "cmu:Schema/q") "A" quarantinedRowState
    (updateSchemaRow "cmu:Schema/q" (blankDoc "cmu:Schema/q")
      [{ atId := "cmu:Schema/q", lock_ts := some 50,
         holder_id := some "A", data := blankDoc "cmu:Schema/q",
         quarantined := 1, note := some "Not Valid SDF" }])
    (by rfl)
  exact h

/-- With distinct keys, looking up a member row's key returns that row. -/
theorem findRow_mem (s : DbState) (r : Row)
    (hkeys : (s.map Row.atId).Nodup) (hr : r ∈ s) :
    findRow s r.atId = some r := by
  induction s with
  | nil => cases hr
  | cons a t ih =>
      simp only [List.map_cons, List.nodup_cons] at hkeys
      rcases List.mem_cons.mp hr with rfl | hrt
      · simp [findRow, List.find?_cons]
      · by_cases ha : (a.atId == r.atId) = true
        · exfalso
          have : a.atId = r.atId := by simpa using ha
          exact hkeys.1 (this ▸ List.mem_map_of_mem Row.atId hrt)
        · have := ih hkeys.2 hrt
          simpa [findRow, List.find?_cons, ha] using this

/-- A row freshly locked by the caller is lockable by the caller again
(re-acquisition is idempotent). -/
theorem lockableBy_lockRow (now : Int) (c : String) (r : Row) :
    lockableBy now c (lockRow now c r) = true := by
  simp [lockableBy, lockIsValid, lockRow]

/-- Successful acquisition in per-row map form. -/
theorem set_lock_acquire_ok (now : Int) (id c : String) (s : DbState)
    (r : Row) (hkeys : (s.map Row.atId).Nodup)
    (hfind : findRow s id = some r) (hl : lockableBy now c r = true) :
    set_lock now true id c s = .ok (s.map (lockIfKey now c id)) := by
  have hcount := filter_key_length_one s id r hkeys hfind
  have hg : (lockIsValid now r && !(r.holder_id == some c)) = false := by
    have hl' : lockIsValid now r = false ∨ r.holder_id = some c := by
      simpa [lockableBy] using hl
    rcases hl' with h | h
    · simp [h]
    · simp [h]
  simp [set_lock, hfind, hg, hcount, lockIfKey, lockRow]

/-- Filtering a mapped table is mapping the filtered table. -/
theorem filter_of_map {α β : Type} (f : α → β) (p : β → Bool)
    (l : List α) :
    (l.map f).filter p = (l.filter (fun x => p (f x))).map f := by
  induction l with
  | nil => rfl
  | cons a t ih =>
      by_cases h : p (f a) = true
      · simp [List.filter_cons, h, ih]
      · simp [List.filter_cons, h, ih]

/-- `lockIfKey` preserves the key. -/
theorem lockIfKey_atId (now : Int) (c id : String) (r : Row) :
    (lockIfKey now c id r).atId = r.atId := by
  unfold lockIfKey lockRow
  by_cases h : (r.atId == id) = true <;> simp [h]

/-- `lockIfMem` preserves the key. -/
theorem lockIfMem_atId (now : Int) (c : String) (ids : List String)
    (r : Row) : (lockIfMem now c ids r).atId = r.atId := by
  unfold lockIfMem lockRow
  by_cases h : r.atId ∈ ids <;> simp [h]

/-- `lockIfKey` and `lockIfMem` leave content and quarantine untouched. -/
theorem lockIfKey_data (now : Int) (c id : String) (r : Row) :
    (lockIfKey now c id r).data = r.data ∧
    (lockIfKey now c id r).quarantined = r.quarantined := by
  unfold lockIfKey lockRow
  by_cases h : (r.atId == id) = true <;> simp [h]

/-- A no-rename write under an obtainable lease, in per-row map form. -/
theorem write_schema_same_ok (now : Int) (id : String) (d : Doc)
    (c : String) (s : DbState) (r : Row)
    (hkeys : (s.map Row.atId).Nodup)
    (hfind : findRow s id = some r) (hl : lockableBy now c r = true) :
    write_schema_same now id d c s = .ok (s.map (writeRowKey now c id d)) := by
  have hsl := set_lock_acquire_ok now id c s r hkeys hfind hl
  have hcomp : updateSchemaRow id d (s.map (lockIfKey now c id)) =
      s.map (writeRowKey now c id d) := by
    unfold updateSchemaRow
    rw [List.map_map]
    apply List.map_congr_left
    intro x _
    simp only [Function.comp]
    by_cases hx : (x.atId == id) = true
    · simp [lockIfKey, lockRow, writeRowKey, hx]
    · simp [lockIfKey, lockRow, writeRowKey, hx]
  simp only [write_schema_same, hsl]
  rw [hcomp]

/-- A found row carries the looked-up key. -/
theorem findRow_atId (s : DbState) (id : String) (r : Row)
    (h : findRow s id = some r) : r.atId = id := by
  have hp := List.find?_some h
  simpa using hp

/-- The lock-acquisition loop in per-row map form: when every key is
present and lockable by the caller, the loop locks exactly the listed
rows. -/
theorem lockAll_ok (now : Int) (c : String) (ids : List String)
    (s : DbState) (hkeys : (s.map Row.atId).Nodup)
    (hpres : ∀ id ∈ ids, ∃ r, findRow s id = some r ∧
      lockableBy now c r = true) :
    lockAll now c ids s = .ok (s.map (lockIfMem now c ids)) := by
  induction ids generalizing s with
  | nil =>
      simp only [lockAll]
      have h2 : s.map (lockIfMem now c []) = s.map (fun x => x) :=
        List.map_congr_left fun x _ => rfl
      rw [h2, List.map_id']
  | cons id rest ih =>
      obtain ⟨r, hr, hl⟩ := hpres id (List.mem_cons_self id rest)
      have hsl := set_lock_acquire_ok now id c s r hkeys hr hl
      have hkeys1 : ((s.map (lockIfKey now c id)).map Row.atId).Nodup := by
        rw [keys_map _ (lockIfKey_atId now c id) s]
        exact hkeys
      have hpres1 : ∀ id' ∈ rest, ∃ r',
          findRow (s.map (lockIfKey now c id)) id' = some r' ∧
          lockableBy now c r' = true := by
        intro id' hid'
        obtain ⟨r', hr', hl'⟩ := hpres id' (List.mem_cons_of_mem id hid')
        refine ⟨lockIfKey now c id r', ?_, ?_⟩
        · rw [findRow_map _ (lockIfKey_atId now c id) s id', hr']
          rfl
        · unfold lockIfKey
          by_cases hx : (r'.atId == id) = true
          · rw [if_pos hx]
            exact lockableBy_lockRow now c r'
          · rw [if_neg hx]
            exact hl'
      have hrec := ih (s.map (lockIfKey now c id)) hkeys1 hpres1
      simp only [lockAll, hsl]
      rw [hrec]
      congr 1
      rw [List.map_map]
      apply List.map_congr_left
      intro x _
      simp only [Function.comp]
      by_cases hx : (x.atId == id) = true
      · have hxid : x.atId = id := by simpa using hx
        unfold lockIfKey lockIfMem lockRow
        by_cases hm : x.atId ∈ rest <;> simp [hx, hxid, hm]
      · have hxid : ¬ x.atId = id := by simpa using hx
        unfold lockIfKey lockIfMem lockRow
        by_cases hm : x.atId ∈ rest <;> simp [hx, hxid, hm]

/-- The lock-acquisition loop fails with Conflict when every key is
present and some key's row holds a valid foreign lease. -/
theorem lockAll_conflict (now : Int) (c : String) (ids : List String)
    (s : DbState) (hkeys : (s.map Row.atId).Nodup)
    (hpres : ∀ id ∈ ids, ∃ r, findRow s id = some r)
    (hbad : ∃ id ∈ ids, ∃ r, findRow s id = some r ∧
      lockableBy now c r = false) :
    lockAll now c ids s = .error .conflictErr := by
  induction ids generalizing s with
  | nil =>
      obtain ⟨id, hid, -⟩ := hbad
      cases hid
  | cons id rest ih =>
      obtain ⟨r, hr⟩ := hpres id (List.mem_cons_self id rest)
      by_cases hl : lockableBy now c r = true
      · have hsl := set_lock_acquire_ok now id c s r hkeys hr hl
        simp only [lockAll, hsl]
        have hkeys1 : ((s.map (lockIfKey now c id)).map Row.atId).Nodup := by
          rw [keys_map _ (lockIfKey_atId now c id) s]
          exact hkeys
        apply ih (s.map (lockIfKey now c id)) hkeys1
        · intro id' hid'
          obtain ⟨r', hr'⟩ := hpres id' (List.mem_cons_of_mem id hid')
          refine ⟨lockIfKey now c id r', ?_⟩
          rw [findRow_map _ (lockIfKey_atId now c id) s id', hr']
          rfl
        · obtain ⟨id0, hid0, r0, hr0, hbad0⟩ := hbad
          have hid0rest : id0 ∈ rest := by
            rcases List.mem_cons.mp hid0 with rfl | h
            · obtain rfl : r0 = r := Option.some.inj (hr0.symm.trans hr)
              rw [hl] at hbad0
              exact Bool.noConfusion hbad0
            · exact h
          have hne : ¬ r0.atId = id := by
            intro hcontra
            have h1 : id0 = id := by
              rw [← findRow_atId s id0 r0 hr0, hcontra]
            rw [h1] at hr0
            obtain rfl : r0 = r := Option.some.inj (hr0.symm.trans hr)
            rw [hl] at hbad0
            exact Bool.noConfusion hbad0
          refine ⟨id0, hid0rest, lockIfKey now c id r0, ?_, ?_⟩
          · rw [findRow_map _ (lockIfKey_atId now c id) s id0, hr0]
            rfl
          · unfold lockIfKey
            rw [if_neg (by simpa using hne)]
            exact hbad0
      · have hlf : lockableBy now c r = false := by
          revert hl
          cases lockableBy now c r <;> simp
        have hg : (lockIsValid now r && !(r.holder_id == some c)) = true := by
          simpa [lockableBy] using hlf
        have hconf : set_lock now true id c s = .error .conflictErr := by
          simp [set_lock, hr, hg]
        simp [lockAll, hconf]

/-- Membership in the referring-schema scan. -/
theorem referringSchemas_mem (old_id : String) (s : DbState) (d : Doc) :
    d ∈ referringSchemas old_id s ↔
      ∃ r ∈ s, (r.quarantined == 0) = true ∧
        refersTo old_id r.data = true ∧ r.data = d := by
  unfold referringSchemas
  constructor
  · intro h
    obtain ⟨hmem, hrefers⟩ := List.mem_filter.mp h
    obtain ⟨r, hr, hdata⟩ := List.mem_map.mp hmem
    obtain ⟨hrs, hq⟩ := List.mem_filter.mp hr
    exact ⟨r, hrs, hq, by rw [hdata]; exact hrefers, hdata⟩
  · rintro ⟨r, hrs, hq, hrefers, rfl⟩
    exact List.mem_filter.mpr
      ⟨List.mem_map_of_mem Row.data (List.mem_filter.mpr ⟨hrs, hq⟩), hrefers⟩

/-- Under the store invariant that each row's key equals its content's
identifier, the referrer scan's identifiers are the keys of the
referring rows. -/
theorem referringSchemas_atIds (old_id : String) (s : DbState)
    (hsync : ∀ r ∈ s, r.data.atId = r.atId) :
    (referringSchemas old_id s).map Doc.atId =
      (s.filter fun r =>
        (r.quarantined == 0) && refersTo old_id r.data).map Row.atId := by
  unfold referringSchemas
  rw [filter_of_map, List.map_map, List.filter_filter]
  have hc : (s.filter fun a =>
      refersTo old_id a.data && (a.quarantined == 0)) =
      s.filter fun r => (r.quarantined == 0) && refersTo old_id r.data :=
    List.filter_congr fun r _ => Bool.and_comm _ _
  rw [hc]
  apply List.map_congr_left
  intro r hr
  exact hsync r (List.mem_filter.mp hr).1

/-- The referrer scan yields pairwise-distinct identifiers. -/
theorem referringSchemas_nodup (old_id : String) (s : DbState)
    (hkeys : (s.map Row.atId).Nodup)
    (hsync : ∀ r ∈ s, r.data.atId = r.atId) :
    ((referringSchemas old_id s).map Doc.atId).Nodup := by
  rw [referringSchemas_atIds old_id s hsync]
  exact List.Nodup.sublist
    (List.Sublist.map Row.atId (List.filter_sublist s)) hkeys

/-- The referrer scan only reads the quarantine flag and the content, so
it is unchanged by per-row maps that keep those columns (such as lease
acquisition). -/
theorem referringSchemas_map_invariant (old_id : String) (s : DbState)
    (f : Row → Row) (hq : ∀ r, (f r).quarantined = r.quarantined)
    (hd : ∀ r, (f r).data = r.data) :
    referringSchemas old_id (s.map f) = referringSchemas old_id s := by
  have step1 : (s.map f).filter (fun r => r.quarantined == 0) =
      (s.filter fun r => r.quarantined == 0).map f := by
    rw [filter_of_map]
    exact congrArg (List.map f) (List.filter_congr fun r _ => by rw [hq])
  unfold referringSchemas
  rw [step1, List.map_map]
  have step2 : (s.filter fun r => r.quarantined == 0).map (Row.data ∘ f) =
      (s.filter fun r => r.quarantined == 0).map Row.data :=
    List.map_congr_left fun r _ => hd r
  rw [step2]

/-- With distinct keys, whether a member row's key occurs among the keys
of the rows satisfying a predicate is decided by the predicate at that
row. -/
theorem key_contains_filter (s : DbState) (x : Row) (PB : Row → Bool)
    (hkeys : (s.map Row.atId).Nodup) (hx : x ∈ s) :
    ((s.filter PB).map Row.atId).contains x.atId = PB x := by
  by_cases hPB : PB x = true
  · rw [hPB]
    have hmem : x.atId ∈ (s.filter PB).map Row.atId :=
      List.mem_map_of_mem Row.atId (List.mem_filter.mpr ⟨hx, hPB⟩)
    simpa using hmem
  · have hPBf : PB x = false := by
      revert hPB
      cases PB x <;> simp
    rw [hPBf]
    by_cases hcon : ((s.filter PB).map Row.atId).contains x.atId = true
    · exfalso
      have hmem : x.atId ∈ (s.filter PB).map Row.atId := by
        simpa using hcon
      obtain ⟨r0, hr0, hr0id⟩ := List.mem_map.mp hmem
      obtain ⟨hr0s, hr0PB⟩ := List.mem_filter.mp hr0
      have : r0 = x := List.inj_on_of_nodup_map hkeys hr0s hx hr0id
      rw [this, hPBf] at hr0PB
      exact Bool.noConfusion hr0PB
    · revert hcon
      cases ((s.filter PB).map Row.atId).contains x.atId <;> simp

/-- With distinct synchronized keys, looking a member row's key up in the
referrer scan returns exactly that row's content when the row refers, and
nothing otherwise. -/
theorem referringSchemas_find (old_id : String) (s : DbState) (x : Row)
    (hkeys : (s.map Row.atId).Nodup)
    (hsync : ∀ r ∈ s, r.data.atId = r.atId) (hx : x ∈ s) :
    (referringSchemas old_id s).find? (fun d => d.atId == x.atId) =
      (if (x.quarantined == 0) && refersTo old_id x.data then
        some x.data else none) := by
  by_cases hPB : ((x.quarantined == 0) && refersTo old_id x.data) = true
  · rw [if_pos hPB]
    obtain ⟨hq, hrefers⟩ := Bool.and_eq_true_iff.mp hPB
    cases hfind : (referringSchemas old_id s).find?
        (fun d => d.atId == x.atId) with
    | none =>
        exfalso
        have hdq := List.find?_eq_none.mp hfind x.data
          ((referringSchemas_mem old_id s x.data).mpr
            ⟨x, hx, hq, hrefers, rfl⟩)
        exact hdq (by simp [hsync x hx])
    | some d0 =>
        have hd0mem := List.mem_of_find?_eq_some hfind
        have hd0id : d0.atId = x.atId := by
          have := List.find?_some hfind
          simpa using this
        obtain ⟨r0, hr0s, -, -, hr0d⟩ :=
          (referringSchemas_mem old_id s d0).mp hd0mem
        have hr0id : r0.atId = x.atId := by
          rw [← hsync r0 hr0s, hr0d, hd0id]
        have : r0 = x := List.inj_on_of_nodup_map hkeys hr0s hx hr0id
        rw [← hr0d, this]
  · rw [if_neg hPB]
    apply List.find?_eq_none.mpr
    intro d hd
    obtain ⟨r0, hr0s, hq0, hrefers0, hr0d⟩ :=
      (referringSchemas_mem old_id s d).mp hd
    intro hdid
    have hdid' : d.atId = x.atId := by simpa using hdid
    have hr0id : r0.atId = x.atId := by rw [← hsync r0 hr0s, hr0d, hdid']
    have : r0 = x := List.inj_on_of_nodup_map hkeys hr0s hx hr0id
    rw [this] at hq0 hrefers0
    exact hPB (by simp [hq0, hrefers0])

/-- The referrer rewrite keeps the document's top-level identifier. -/
theorem rewriteReferrer_atId (old_id new_id : String) (d : Doc) :
    (rewriteReferrer old_id new_id d).atId = d.atId := rfl

/-- `writeRowKey` preserves the row key when the written content carries
the row's identifier. -/
theorem writeRowKey_atId (now : Int) (c : String) (d : Doc) (r : Row) :
    (writeRowKey now c d.atId d r).atId = r.atId := by
  unfold writeRowKey lockRow
  by_cases h : (r.atId == d.atId) = true
  · have hid : r.atId = d.atId := by simpa using h
    simp [h, hid]
  · simp [h]

/-- A row just written under the caller's lease is still lockable by the
caller. -/
theorem lockableBy_writeRowKey (now : Int) (c : String) (id : String)
    (d : Doc) (r : Row) (hl : lockableBy now c r = true) :
    lockableBy now c (writeRowKey now c id d r) = true := by
  unfold writeRowKey
  by_cases h : (r.atId == id) = true
  · rw [if_pos h]
    simp [lockableBy, lockIsValid, lockRow]
  · rw [if_neg h]
    exact hl

/-- The referrer rewrite-and-persist loop in per-row map form: with
distinct captured documents whose rows are present and lockable, the loop
stores each rewritten document at its row. -/
theorem writeReferrers_ok (now : Int) (old_id new_id c : String)
    (docs : List Doc) (s : DbState)
    (hkeys : (s.map Row.atId).Nodup)
    (hnd : (docs.map Doc.atId).Nodup)
    (hpres : ∀ d ∈ docs, ∃ r, findRow s d.atId = some r ∧
      lockableBy now c r = true) :
    writeReferrers now old_id new_id c docs s =
      .ok (s.map (writeRowMem now old_id new_id c docs)) := by
  induction docs generalizing s with
  | nil =>
      simp only [writeReferrers]
      have h2 : s.map (writeRowMem now old_id new_id c []) =
          s.map fun x => x :=
        List.map_congr_left fun x _ => rfl
      rw [h2, List.map_id']
  | cons d rest ih =>
      obtain ⟨r, hr, hl⟩ := hpres d (List.mem_cons_self d rest)
      have hfind' : findRow s (rewriteReferrer old_id new_id d).atId =
          some r := hr
      have hw := write_schema_same_ok now
        (rewriteReferrer old_id new_id d).atId
        (rewriteReferrer old_id new_id d) c s r hkeys hfind' hl
      have hpre : ∀ x : Row,
          (writeRowKey now c (rewriteReferrer old_id new_id d).atId
            (rewriteReferrer old_id new_id d) x).atId = x.atId :=
        writeRowKey_atId now c (rewriteReferrer old_id new_id d)
      have hkeys1 : ((s.map (writeRowKey now c
          (rewriteReferrer old_id new_id d).atId
          (rewriteReferrer old_id new_id d))).map Row.atId).Nodup := by
        rw [keys_map _ hpre s]
        exact hkeys
      simp only [List.map_cons, List.nodup_cons] at hnd
      have hpres1 : ∀ d'' ∈ rest, ∃ r'',
          findRow (s.map (writeRowKey now c
            (rewriteReferrer old_id new_id d).atId
            (rewriteReferrer old_id new_id d))) d''.atId = some r'' ∧
          lockableBy now c r'' = true := by
        intro d'' hd''
        obtain ⟨r'', hr'', hl''⟩ := hpres d'' (List.mem_cons_of_mem d hd'')
        refine ⟨writeRowKey now c (rewriteReferrer old_id new_id d).atId
          (rewriteReferrer old_id new_id d) r'', ?_,
          lockableBy_writeRowKey now c (rewriteReferrer old_id new_id d).atId
            (rewriteReferrer old_id new_id d) r'' hl''⟩
        rw [findRow_map _ hpre s d''.atId, hr'']
        rfl
      have hrec := ih (s.map (writeRowKey now c
        (rewriteReferrer old_id new_id d).atId
        (rewriteReferrer old_id new_id d))) hkeys1 hnd.2 hpres1
      simp only [writeReferrers, hw]
      rw [hrec]
      congr 1
      rw [List.map_map]
      apply List.map_congr_left
      intro x hxs
      simp only [Function.comp]
      by_cases hx : (x.atId == d.atId) = true
      · have hxid : x.atId = d.atId := by simpa using hx
        have hxB : (x.atId == (rewriteReferrer old_id new_id d).atId) =
            true := by
          rw [rewriteReferrer_atId]
          exact hx
        have hfind_rest : rest.find?
            (fun d0 => d0.atId == d.atId) = none := by
          apply List.find?_eq_none.mpr
          intro d0 hd0
          intro hcontra
          have hd0id : d0.atId = d.atId := by simpa using hcontra
          exact hnd.1 (hd0id ▸ List.mem_map_of_mem Doc.atId hd0)
        have hhead : (d.atId == x.atId) = true := by
          rw [hxid]
          exact beq_self_eq_true d.atId
        have hfind_cons : List.find? (fun d0 => d0.atId == x.atId)
            (d :: rest) = some d :=
          List.find?_cons_of_pos rest hhead
        unfold writeRowKey writeRowMem
        rw [if_pos hxB]
        have hyid : ({ lockRow now c x with
            data := rewriteReferrer old_id new_id d
            atId := (rewriteReferrer old_id new_id d).atId
            quarantined := 0 } : Row).atId = d.atId := rfl
        rw [hyid, hfind_rest, hfind_cons]
      · have hxB : (x.atId == (rewriteReferrer old_id new_id d).atId) =
            false := by
          rw [rewriteReferrer_atId]
          revert hx
          cases x.atId == d.atId <;> simp
        have hhead : (d.atId == x.atId) = false := by
          have hne : ¬ x.atId = d.atId := by simpa using hx
          simp [Ne.symm hne]
        have hfind_cons : List.find? (fun d0 => d0.atId == x.atId)
            (d :: rest) = List.find? (fun d0 => d0.atId == x.atId) rest :=
          List.find?_cons_of_neg rest (by rw [hhead]; exact Bool.false_ne_true)
        unfold writeRowKey writeRowMem
        rw [hxB]
        simp only [Bool.false_eq_true, if_false]
        rw [hfind_cons]

/-- `lockIfMem` leaves content and quarantine untouched. -/
theorem lockIfMem_data (now : Int) (c : String) (ids : List String)
    (r : Row) :
    (lockIfMem now c ids r).data = r.data ∧
    (lockIfMem now c ids r).quarantined = r.quarantined := by
  unfold lockIfMem lockRow
  by_cases h : r.atId ∈ ids <;> simp [h]

/-- C1: rename atomicity of `write_schema`.  When the written content
changes the top-level identifier, either every non-quarantined referring
row can be locked by the caller, in which case the whole operation
succeeds and the store is exactly the input with every referrer re-pointed
(with re-derived label) and the target renamed, persisted and
un-quarantined (`renamedRow`); or some referring row holds a valid foreign
lease, in which case the operation fails with Conflict and, the
transaction rolling back, no document changes at all. -/
theorem write_schema_rename_atomic
    (now : Int) (schema_id client_id : String) (sdf_data : Doc)
    (s : DbState)
    (hkeys : (s.map Row.atId).Nodup)
    (hsync : ∀ r ∈ s, r.data.atId = r.atId)
    (trow : Row) (hfind : findRow s schema_id = some trow)
    (htlock : lockableBy now client_id trow = true)
    (hrename : ¬ sdf_data.atId = schema_id)
    (hself : refersTo schema_id trow.data = false) :
    ((∀ r ∈ s, ((r.quarantined == 0) && refersTo schema_id r.data) = true →
        lockableBy now client_id r = true) →
      write_schema now schema_id sdf_data client_id s =
        .ok (s.map (renamedRow now schema_id sdf_data client_id))) ∧
    ((∃ r ∈ s, ((r.quarantined == 0) && refersTo schema_id r.data) = true ∧
        lockableBy now client_id r = false) →
      write_schema now schema_id sdf_data client_id s =
        .error .conflictErr) := by
  have hsl := set_lock_acquire_ok now schema_id client_id s trow hkeys
    hfind htlock
  have hkeys1 : ((s.map (lockIfKey now client_id schema_id)).map
      Row.atId).Nodup := by
    rw [keys_map _ (lockIfKey_atId now client_id schema_id) s]
    exact hkeys
  have hrefs1 : referringSchemas schema_id
      (s.map (lockIfKey now client_id schema_id)) =
      referringSchemas schema_id s :=
    referringSchemas_map_invariant schema_id s _
      (fun r => (lockIfKey_data now client_id schema_id r).2)
      (fun r => (lockIfKey_data now client_id schema_id r).1)
  have hPBtrow : ((trow.quarantined == 0) &&
      refersTo schema_id trow.data) = false := by
    rw [hself, Bool.and_false]
  have hnottarget : ∀ r0 ∈ s,
      ((r0.quarantined == 0) && refersTo schema_id r0.data) = true →
      (r0.atId == schema_id) = false := by
    intro r0 hr0s hPB0
    by_cases hb : (r0.atId == schema_id) = true
    · exfalso
      have hid0 : r0.atId = schema_id := by simpa using hb
      have h1 : findRow s r0.atId = some r0 := findRow_mem s r0 hkeys hr0s
      rw [hid0] at h1
      obtain rfl : r0 = trow := Option.some.inj (h1.symm.trans hfind)
      rw [hPBtrow] at hPB0
      exact Bool.noConfusion hPB0
    · revert hb
      cases r0.atId == schema_id <;> simp
  have hrefrow : ∀ id ∈ (referringSchemas schema_id s).map Doc.atId,
      ∃ r0, r0 ∈ s ∧ r0.atId = id ∧
        ((r0.quarantined == 0) && refersTo schema_id r0.data) = true ∧
        findRow (s.map (lockIfKey now client_id schema_id)) id =
          some r0 := by
    intro id hid
    rw [referringSchemas_atIds schema_id s hsync] at hid
    obtain ⟨r0, hr0f, hr0id⟩ := List.mem_map.mp hid
    obtain ⟨hr0s, hr0PB⟩ := List.mem_filter.mp hr0f
    have hne := hnottarget r0 hr0s hr0PB
    have hfind0 : findRow s id = some r0 := by
      rw [← hr0id]
      exact findRow_mem s r0 hkeys hr0s
    have hfind1 : findRow (s.map (lockIfKey now client_id schema_id)) id =
        some (lockIfKey now client_id schema_id r0) := by
      rw [findRow_map _ (lockIfKey_atId now client_id schema_id) s id,
        hfind0]
      rfl
    have hLr0 : lockIfKey now client_id schema_id r0 = r0 := by
      unfold lockIfKey
      rw [hne]
      simp
    rw [hLr0] at hfind1
    exact ⟨r0, hr0s, hr0id, hr0PB, hfind1⟩
  have hneq : (schema_id == sdf_data.atId) = false := by
    have : ¬ schema_id = sdf_data.atId := fun h => hrename h.symm
    simp [this]
  constructor
  · -- all referrers lockable: the rename succeeds and rewrites everything
    intro hlockable
    have hpresLock : ∀ id ∈ (referringSchemas schema_id s).map Doc.atId,
        ∃ r', findRow (s.map (lockIfKey now client_id schema_id)) id =
          some r' ∧ lockableBy now client_id r' = true := by
      intro id hid
      obtain ⟨r0, hr0s, hr0id, hr0PB, hfind1⟩ := hrefrow id hid
      exact ⟨r0, hfind1, hlockable r0 hr0s hr0PB⟩
    have hlockAll := lockAll_ok now client_id
      ((referringSchemas schema_id s).map Doc.atId)
      (s.map (lockIfKey now client_id schema_id)) hkeys1 hpresLock
    have hkeys2 : (((s.map (lockIfKey now client_id schema_id)).map
        (lockIfMem now client_id
          ((referringSchemas schema_id s).map Doc.atId))).map
        Row.atId).Nodup := by
      rw [keys_map _ (lockIfMem_atId now client_id _)]
      exact hkeys1
    have hnd := referringSchemas_nodup schema_id s hkeys hsync
    have hpresWrite : ∀ d ∈ referringSchemas schema_id s, ∃ r',
        findRow ((s.map (lockIfKey now client_id schema_id)).map
          (lockIfMem now client_id
            ((referringSchemas schema_id s).map Doc.atId))) d.atId =
          some r' ∧ lockableBy now client_id r' = true := by
      intro d hd
      have hidmem : d.atId ∈ (referringSchemas schema_id s).map Doc.atId :=
        List.mem_map_of_mem Doc.atId hd
      obtain ⟨r0, hr0s, hr0id, hr0PB, hfind1⟩ := hrefrow d.atId hidmem
      have hfind2 : findRow ((s.map (lockIfKey now client_id schema_id)).map
          (lockIfMem now client_id
            ((referringSchemas schema_id s).map Doc.atId))) d.atId =
          some (lockIfMem now client_id
            ((referringSchemas schema_id s).map Doc.atId) r0) := by
        rw [findRow_map _ (lockIfMem_atId now client_id _) _ d.atId, hfind1]
        rfl
      have hcont : ((referringSchemas schema_id s).map Doc.atId).contains
          r0.atId = true := by
        rw [referringSchemas_atIds schema_id s hsync,
          key_contains_filter s r0 _ hkeys hr0s]
        exact hr0PB
      have hMr0 : lockIfMem now client_id
          ((referringSchemas schema_id s).map Doc.atId) r0 =
          lockRow now client_id r0 := by
        unfold lockIfMem
        rw [hcont]
        simp
      rw [hMr0] at hfind2
      exact ⟨lockRow now client_id r0, hfind2,
        lockableBy_lockRow now client_id r0⟩
    have hwr := writeReferrers_ok now schema_id sdf_data.atId client_id
      (referringSchemas schema_id s)
      ((s.map (lockIfKey now client_id schema_id)).map
        (lockIfMem now client_id
          ((referringSchemas schema_id s).map Doc.atId)))
      hkeys2 hnd hpresWrite
    have hccr : change_referring_schemas now schema_id sdf_data.atId
        client_id (s.map (lockIfKey now client_id schema_id)) =
        .ok (((s.map (lockIfKey now client_id schema_id)).map
          (lockIfMem now client_id
            ((referringSchemas schema_id s).map Doc.atId))).map
          (writeRowMem now schema_id sdf_data.atId client_id
            (referringSchemas schema_id s))) := by
      unfold change_referring_schemas
      rw [hneq]
      simp only [Bool.false_eq_true, if_false, hrefs1, hlockAll]
      exact hwr
    simp only [write_schema, hsl, hccr]
    congr 1
    unfold updateSchemaRow
    rw [List.map_map, List.map_map, List.map_map]
    apply List.map_congr_left
    intro x hxs
    simp only [Function.comp]
    by_cases hx1 : (x.atId == schema_id) = true
    · have hxtrow : x = trow := by
        have hxid : x.atId = schema_id := by simpa using hx1
        have h1 : findRow s x.atId = some x := findRow_mem s x hkeys hxs
        rw [hxid] at h1
        exact Option.some.inj (h1.symm.trans hfind)
      have hPBx : ((x.quarantined == 0) &&
          refersTo schema_id x.data) = false := by
        rw [hxtrow]
        exact hPBtrow
      have hcont : ((referringSchemas schema_id s).map Doc.atId).contains
          x.atId = false := by
        rw [referringSchemas_atIds schema_id s hsync,
          key_contains_filter s x _ hkeys hxs]
        exact hPBx
      have hfindW : (referringSchemas schema_id s).find?
          (fun d => d.atId == x.atId) = none := by
        rw [referringSchemas_find schema_id s x hkeys hsync hxs, hPBx]
        simp
      have hLx : lockIfKey now client_id schema_id x =
          lockRow now client_id x := by
        unfold lockIfKey
        rw [hx1]
        simp
      have hMx : lockIfMem now client_id
          ((referringSchemas schema_id s).map Doc.atId)
          (lockRow now client_id x) = lockRow now client_id x := by
        unfold lockIfMem
        have hc2 : ((referringSchemas schema_id s).map Doc.atId).contains
            (lockRow now client_id x).atId = false := hcont
        rw [hc2]
        simp
      have hWx : writeRowMem now schema_id sdf_data.atId client_id
          (referringSchemas schema_id s) (lockRow now client_id x) =
          lockRow now client_id x := by
        unfold writeRowMem
        have hsc : (referringSchemas schema_id s).find?
            (fun d => d.atId == (lockRow now client_id x).atId) = none :=
          hfindW
        rw [hsc]
      rw [hLx, hMx, hWx]
      unfold renamedRow
      rw [hx1]
      have hxid : x.atId = schema_id := by simpa using hx1
      simp [lockRow, hxid]
    · have hx1f : (x.atId == schema_id) = false := by
        revert hx1
        cases x.atId == schema_id <;> simp
      have hLx : lockIfKey now client_id schema_id x = x := by
        unfold lockIfKey
        rw [hx1f]
        simp
      by_cases hPBx : ((x.quarantined == 0) &&
          refersTo schema_id x.data) = true
      · have hcont : ((referringSchemas schema_id s).map Doc.atId).contains
            x.atId = true := by
          rw [referringSchemas_atIds schema_id s hsync,
            key_contains_filter s x _ hkeys hxs]
          exact hPBx
        have hfindW : (referringSchemas schema_id s).find?
            (fun d => d.atId == x.atId) = some x.data := by
          rw [referringSchemas_find schema_id s x hkeys hsync hxs, hPBx]
          simp
        have hda : (rewriteReferrer schema_id sdf_data.atId x.data).atId =
            x.atId := by
          rw [rewriteReferrer_atId]
          exact hsync x hxs
        have hMx : lockIfMem now client_id
            ((referringSchemas schema_id s).map Doc.atId) x =
            lockRow now client_id x := by
          unfold lockIfMem
          rw [hcont]
          simp
        have hWx : writeRowMem now schema_id sdf_data.atId client_id
            (referringSchemas schema_id s) (lockRow now client_id x) =
            { lockRow now client_id x with
                data := rewriteReferrer schema_id sdf_data.atId x.data
                atId := (rewriteReferrer schema_id sdf_data.atId x.data).atId
                quarantined := 0 } := by
          unfold writeRowMem
          have hsc : (referringSchemas schema_id s).find?
              (fun d => d.atId == (lockRow now client_id x).atId) =
              some x.data := hfindW
          rw [hsc]
          rfl
        rw [hLx, hMx, hWx]
        unfold renamedRow
        rw [hx1f, hPBx]
        have hUcond : (({ lockRow now client_id x with
            data := rewriteReferrer schema_id sdf_data.atId x.data
            atId := (rewriteReferrer schema_id sdf_data.atId x.data).atId
            quarantined := 0 } : Row).atId == schema_id) = false := by
          have h3 : ({ lockRow now client_id x with
              data := rewriteReferrer schema_id sdf_data.atId x.data
              atId := (rewriteReferrer schema_id sdf_data.atId x.data).atId
              quarantined := 0 } : Row).atId =
              (rewriteReferrer schema_id sdf_data.atId x.data).atId := rfl
          rw [h3, hda]
          exact hx1f
        have hxne : ¬ x.atId = schema_id := by simpa using hx1f
        simp [lockRow, hda, hxne]
      · have hPBxf : ((x.quarantined == 0) &&
            refersTo schema_id x.data) = false := by
          revert hPBx
          cases (x.quarantined == 0) && refersTo schema_id x.data <;> simp
        have hcont : ((referringSchemas schema_id s).map Doc.atId).contains
            x.atId = false := by
          rw [referringSchemas_atIds schema_id s hsync,
            key_contains_filter s x _ hkeys hxs]
          exact hPBxf
        have hfindW : (referringSchemas schema_id s).find?
            (fun d => d.atId == x.atId) = none := by
          rw [referringSchemas_find schema_id s x hkeys hsync hxs, hPBxf]
          simp
        have hMx : lockIfMem now client_id
            ((referringSchemas schema_id s).map Doc.atId) x = x := by
          unfold lockIfMem
          rw [hcont]
          simp
        have hWx : writeRowMem now schema_id sdf_data.atId client_id
            (referringSchemas schema_id s) x = x := by
          unfold writeRowMem
          rw [hfindW]
        rw [hLx, hMx, hWx]
        unfold renamedRow
        rw [hx1f, hPBxf]
        simp
  · -- an unlockable referrer: the whole write fails with Conflict
    rintro ⟨rb, hrbs, hrbPB, hrbbad⟩
    have hpres : ∀ id ∈ (referringSchemas schema_id s).map Doc.atId,
        ∃ r', findRow (s.map (lockIfKey now client_id schema_id)) id =
          some r' := by
      intro id hid
      obtain ⟨r0, hr0s, hr0id, hr0PB, hfind1⟩ := hrefrow id hid
      exact ⟨r0, hfind1⟩
    have hbadid : rb.atId ∈ (referringSchemas schema_id s).map Doc.atId := by
      rw [referringSchemas_atIds schema_id s hsync]
      exact List.mem_map_of_mem Row.atId (List.mem_filter.mpr ⟨hrbs, hrbPB⟩)
    have hbad : ∃ id ∈ (referringSchemas schema_id s).map Doc.atId, ∃ r',
        findRow (s.map (lockIfKey now client_id schema_id)) id = some r' ∧
        lockableBy now client_id r' = false := by
      obtain ⟨r0, hr0s, hr0id, hr0PB, hfind1⟩ := hrefrow rb.atId hbadid
      have : r0 = rb := List.inj_on_of_nodup_map hkeys hr0s hrbs hr0id
      rw [this] at hfind1
      exact ⟨rb.atId, hbadid, rb, hfind1, hrbbad⟩
    have hconf := lockAll_conflict now client_id
      ((referringSchemas schema_id s).map Doc.atId)
      (s.map (lockIfKey now client_id schema_id)) hkeys1 hpres hbad
    have hccr : change_referring_schemas now schema_id sdf_data.atId
        client_id (s.map (lockIfKey now client_id schema_id)) =
        .error .conflictErr := by
      unfold change_referring_schemas
      rw [hneq]
      simp only [Bool.false_eq_true, if_false, hrefs1, hconf]
    simp only [write_schema, hsl, hccr]

/-- Witness for C1: renaming `cmu:Schema/t` to `cmu:Schema/t2` on a store
with one unlocked referrer succeeds and the result is the per-row rename
transform of the input store. -/
theorem write_schema_rename_atomic_witness :
    write_schema 100 "cmu:Schema/t" renameNewDoc "A" renameState =
      .ok (renameState.map
        (renamedRow 100 "cmu:Schema/t" renameNewDoc "A")) := by
  exact (write_schema_rename_atomic 100 "cmu:Schema/t" "A" renameNewDoc
    renameState (by decide) (by decide)
    { atId := "cmu:Schema/t", data := renameTargetDoc }
    (by decide) (by decide) (by decide) (by decide)).1 (by decide)

/-- C3 (bug exhibit): the unused-argument pruning loop advances the
cursor by the outer loop index `i` instead of 1.  First conjunct: when the
subschema-referencing event sits at index `i = 0` and some participant is
not an unused-argument reference, the loop never terminates (no amount of
fuel completes it).  Second conjunct: when `i = 2`, the loop terminates
but skips over — and therefore retains — a participant that references
the unused formal argument, although the pass is supposed to strip every
such reference. -/
theorem prune_unused_args_bug :
    (∀ fuel : Nat,
      pruneParticipants fuel 0 ["cmu:Entities/u"] 0 [pKeep] = none) ∧
    pruneParticipants 10 2 ["cmu:Entities/u"] 0 [pKeep, pUnused] =
      some [pKeep, pUnused] ∧
    pUnused.entity ∈ ["cmu:Entities/u"] := by
  refine ⟨?_, by decide, by decide⟩
  intro fuel
  induction fuel with
  | zero => rfl
  | succ n ih =>
      have hstep : pruneParticipants (n + 1) 0 ["cmu:Entities/u"] 0 [pKeep] =
          pruneParticipants n 0 ["cmu:Entities/u"] 0 [pKeep] := rfl
      rw [hstep, ih]

/-- Counterexample to C5: a subschema whose event graph is a two-cycle
has zero root events, and composition aborts with the out-of-range error
of `list(all_roots)[0]`, not with the structural error the claim
promises. -/
theorem zero_root_subschema_index_error_cex :
    allRootEvents cycleEvents = [] ∧
    pickSubschemaRoot cycleEvents = .error .indexErr ∧
    pickSubschemaRoot cycleEvents ≠ .error .structuralErr := by
  refine ⟨by decide, rfl, ?_⟩
  intro hcontra
  rw [show pickSubschemaRoot cycleEvents = .error .indexErr from rfl]
    at hcontra
  exact CompErr.noConfusion (Except.error.inj hcontra)

/-- C5 (amended): more than one root event aborts composition with the
structural error; exactly one root is returned; zero root events abort
with an index-out-of-range failure instead of the structural error — in
no case is a root silently guessed. -/
theorem pickSubschemaRoot_spec (events : List Event) :
    ((allRootEvents events).length > 1 →
      pickSubschemaRoot events = .error .structuralErr) ∧
    (allRootEvents events = [] →
      pickSubschemaRoot events = .error .indexErr) ∧
    (∀ r, allRootEvents events = [r] →
      pickSubschemaRoot events = .ok r) := by
  refine ⟨?_, ?_, ?_⟩
  · intro h
    simp [pickSubschemaRoot, h]
  · intro h
    simp [pickSubschemaRoot, h]
  · intro r h
    simp [pickSubschemaRoot, h]

/-- Witness for the amended C5: a unique root is found and returned. -/
theorem pickSubschemaRoot_spec_witness :
    pickSubschemaRoot oneRootEvents = .ok "cmu:Events/1" :=
  (pickSubschemaRoot_spec oneRootEvents).2.2 "cmu:Events/1" (by decide)

/-- Counterexample to C4: a stored document whose quarantine flag is set
but whose content validates is included in the composition input set and
served by a default (validating) read — neither `package_schemas` nor
`get_schema` consults the quarantine column. -/
theorem quarantined_included_in_compose_cex :
    (blankDoc "cmu:Schema/q") ∈
      packageInput (fun _ => true) ["cmu:Schema/q"] quarantinedRowState ∧
    get_schema (fun _ => true) "cmu:Schema/q" false quarantinedRowState =
      .ok (blankDoc "cmu:Schema/q") ∧
    ∀ r ∈ quarantinedRowState, r.quarantined = 1 := by
  refine ⟨by decide, rfl, by decide⟩

/-- C4 (amended): the composition input and the read path filter by
content validation only, never by the quarantine flag.  Both are
invariant under arbitrary rewrites of every row's quarantine column; a
document enters `compose`'s input exactly when it is selected and its
content validates; and a read that opts out of validation serves the raw
content unconditionally. -/
theorem compose_read_ignore_quarantine_flag (V : Doc → Bool)
    (schema_ids : List String) (schema_id : String) (nv : Bool)
    (s : DbState) (f : Row → Nat) :
    (packageInput V schema_ids
        (s.map fun r => { r with quarantined := f r }) =
      packageInput V schema_ids s) ∧
    (get_schema V schema_id nv
        (s.map fun r => { r with quarantined := f r }) =
      get_schema V schema_id nv s) ∧
    (∀ d, d ∈ packageInput V schema_ids s ↔
      ∃ r ∈ s, schema_ids.contains r.atId = true ∧ r.data = d ∧
        V d = true) ∧
    (∀ r, findRow s schema_id = some r →
      get_schema V schema_id true s = .ok r.data) := by
  refine ⟨?_, ?_, ?_, ?_⟩
  · unfold packageInput selectSchemas
    have step1 : (s.map fun r => ({ r with quarantined := f r } : Row)).filter
        (fun r => schema_ids.contains r.atId) =
        (s.filter fun r => schema_ids.contains r.atId).map
          fun r => { r with quarantined := f r } := by
      rw [filter_of_map]
    rw [step1, List.map_map]
    have step2 : (s.filter fun r => schema_ids.contains r.atId).map
        (Row.data ∘ fun r => ({ r with quarantined := f r } : Row)) =
        (s.filter fun r => schema_ids.contains r.atId).map Row.data :=
      List.map_congr_left fun r _ => rfl
    rw [step2]
  · unfold get_schema
    rw [findRow_map (fun r => { r with quarantined := f r })
      (fun r => rfl) s schema_id]
    cases h : findRow s schema_id with
    | none => rfl
    | some r => rfl
  · intro d
    unfold packageInput selectSchemas
    constructor
    · intro h
      obtain ⟨hmem, hV⟩ := List.mem_filter.mp h
      obtain ⟨r, hr, hdata⟩ := List.mem_map.mp hmem
      obtain ⟨hrs, hsel⟩ := List.mem_filter.mp hr
      exact ⟨r, hrs, hsel, hdata, by rw [← hdata] at hV; rw [hdata] at hV; exact hV⟩
    · rintro ⟨r, hrs, hsel, rfl, hV⟩
      exact List.mem_filter.mpr
        ⟨List.mem_map_of_mem Row.data (List.mem_filter.mpr ⟨hrs, hsel⟩), hV⟩
  · intro r hr
    unfold get_schema
    rw [hr]
    rfl

/-- Witness for the amended C4: with validation stubbed to accept
everything, the quarantined store's document is read raw when validation
is skipped. -/
theorem compose_read_ignore_quarantine_flag_witness :
    get_schema (fun _ => true) "cmu:Schema/q" true quarantinedRowState =
      .ok (blankDoc "cmu:Schema/q") := by
  have h := (compose_read_ignore_quarantine_flag (fun _ => true) []
    "cmu:Schema/q" true quarantinedRowState (fun _ => 0)).2.2.2
  have h2 := h { atId := "cmu:Schema/q"
                 data := blankDoc "cmu:Schema/q"
                 quarantined := 1
                 note := some "Not Valid SDF" } (by decide)
  simpa using h2

/-- A list whose image under `f` has no duplicates is pairwise
`f`-distinct. -/
theorem pairwise_ne_of_nodup_map {α β : Type} (f : α → β) (l : List α)
    (h : (l.map f).Nodup) : l.Pairwise fun a b => f a ≠ f b := by
  induction l with
  | nil => exact List.Pairwise.nil
  | cons a t ih =>
      simp only [List.map_cons, List.nodup_cons] at h
      refine List.Pairwise.cons ?_ (ih h.2)
      intro b hb hfab
      exact h.1 (hfab ▸ List.mem_map_of_mem f hb)

/-- Sorting by identifier is canonical: two stores that are permutations
of each other (same rows, any order) produce the same sorted document
list, provided the fetched documents carry pairwise-distinct
identifiers. -/
theorem sortSchemas_perm_eq (l₁ l₂ : List Doc) (hperm : l₁.Perm l₂)
    (hnd : (l₁.map Doc.atId).Nodup) :
    sortSchemas l₁ = sortSchemas l₂ := by
  have htrans : ∀ a b c : Doc, (a.atId ≤ b.atId : Bool) = true →
      (b.atId ≤ c.atId : Bool) = true → (a.atId ≤ c.atId : Bool) = true := by
    intro a b c h1 h2
    simp only [decide_eq_true_eq] at h1 h2 ⊢
    exact le_trans h1 h2
  have htotal : ∀ a b : Doc,
      ((a.atId ≤ b.atId : Bool) || (b.atId ≤ a.atId : Bool)) = true := by
    intro a b
    rcases le_total a.atId b.atId with h | h <;> simp [h]
  have hperm₁ : (sortSchemas l₁).Perm l₁ := List.mergeSort_perm l₁ _
  have hperm₂ : (sortSchemas l₂).Perm l₂ := List.mergeSort_perm l₂ _
  have hndsort₁ : ((sortSchemas l₁).map Doc.atId).Nodup :=
    ((hperm₁.map Doc.atId).nodup_iff).mpr hnd
  have hnd₂ : (l₂.map Doc.atId).Nodup :=
    ((hperm.map Doc.atId).nodup_iff).mp hnd
  have hndsort₂ : ((sortSchemas l₂).map Doc.atId).Nodup :=
    ((hperm₂.map Doc.atId).nodup_iff).mpr hnd₂
  have hsorted : ∀ l : List Doc, ((sortSchemas l).map Doc.atId).Nodup →
      List.Sorted (fun a b : Doc => a.atId < b.atId ∨ a = b)
        (sortSchemas l) := by
    intro l hndl
    have hpw := List.sorted_mergeSort htrans htotal l
    have hne := pairwise_ne_of_nodup_map Doc.atId (sortSchemas l) hndl
    have hcomb := List.Pairwise.and hpw hne
    refine hcomb.imp ?_
    intro a b hab
    left
    have hle : a.atId ≤ b.atId := by
      have := hab.1
      simpa using this
    exact lt_of_le_of_ne hle hab.2
  haveI : IsAntisymm Doc (fun a b : Doc => a.atId < b.atId ∨ a = b) := by
    constructor
    rintro a b (h1 | rfl) h2
    · rcases h2 with h2 | rfl
      · exact absurd h2 (lt_asymm h1)
      · rfl
    · rfl
  exact List.eq_of_perm_of_sorted
    ((hperm₁.trans hperm).trans hperm₂.symm)
    (hsorted l₁ hndsort₁) (hsorted l₂ hndsort₂)

/-- C8: the library-name digest depends only on the set of fetched,
validated documents.  For any hash, any canonical serialization and any
validator, two stores holding the same rows (in any order) yield the same
base-62 digest, because the fetched documents are sorted by identifier
before the concatenation is hashed; in particular composing the same
identifiers twice with no intervening edits reproduces the digest
suffix. -/
theorem libraryDigest_perm_invariant (H : String → List Nat)
    (serialize : Doc → String) (V : Doc → Bool)
    (schema_ids : List String) (s₁ s₂ : DbState) (hperm : s₁.Perm s₂)
    (hnd : ((packageInput V schema_ids s₁).map Doc.atId).Nodup) :
    libraryDigest H serialize V schema_ids s₁ =
      libraryDigest H serialize V schema_ids s₂ := by
  have hfp : (packageInput V schema_ids s₁).Perm
      (packageInput V schema_ids s₂) := by
    unfold packageInput selectSchemas
    exact ((hperm.filter _).map Row.data).filter _
  have hsort := sortSchemas_perm_eq _ _ hfp hnd
  unfold libraryDigest
  rw [hsort]

/-- Witness for C8: the digest of a two-document store is unchanged when
the two rows are stored in the opposite order. -/
theorem libraryDigest_perm_invariant_witness :
    libraryDigest (fun str => [str.length % 256]) (fun d => d.atId)
      (fun _ => true) ["cmu:Schema/t", "cmu:Schema/r"] renameState =
    libraryDigest (fun str => [str.length % 256]) (fun d => d.atId)
      (fun _ => true) ["cmu:Schema/t", "cmu:Schema/r"]
      [{ atId := "cmu:Schema/r", data := renameReferrerDoc },
       { atId := "cmu:Schema/t", data := renameTargetDoc }] := by
  exact libraryDigest_perm_invariant (fun str => [str.length % 256])
    (fun d => d.atId) (fun _ => true) ["cmu:Schema/t", "cmu:Schema/r"]
    renameState
    [{ atId := "cmu:Schema/r", data := renameReferrerDoc },
     { atId := "cmu:Schema/t", data := renameTargetDoc }]
    (by decide) (by decide)

/-- Fold functions that agree on a list's members fold identically. -/
theorem foldl_congr_mem {α β : Type} (f g : β → α → β) (l : List α)
    (h : ∀ x ∈ l, ∀ a, f a x = g a x) :
    ∀ a0, l.foldl f a0 = l.foldl g a0 := by
  induction l with
  | nil =>
      intro a0
      rfl
  | cons x t ih =>
      intro a0
      simp only [List.foldl_cons]
      rw [h x (List.mem_cons_self x t) a0]
      exact ih (fun y hy a => h y (List.mem_cons_of_mem x hy) a) _

/-- Reading digit lists most-significant-first is `Nat.ofDigits`. -/
theorem foldl_reverse_ofDigits (l : List Nat) :
    l.reverse.foldl (fun a d => 10 * a + d) 0 = Nat.ofDigits 10 l := by
  induction l with
  | nil => simp [Nat.ofDigits]
  | cons d t ih =>
      rw [List.reverse_cons, List.foldl_append, ih, Nat.ofDigits_cons]
      simp
      omega

/-- Leading zeros do not change the decimal reading. -/
theorem parseDec_replicate_zero (k : Nat) (rest : List Char) :
    parseDec (List.replicate k '0' ++ rest) = parseDec rest := by
  unfold parseDec
  rw [List.foldl_append]
  have hz : List.foldl (fun a ch => 10 * a + (ch.toNat - 48)) 0
      (List.replicate k '0') = 0 := by
    induction k with
    | zero => rfl
    | succ m ih =>
        rw [List.replicate_succ, List.foldl_cons]
        simpa using ih
  rw [hz]

/-- The decimal reading inverts the decimal rendering. -/
theorem parseDec_decChars (n : Nat) : parseDec (decChars n) = n := by
  unfold parseDec decChars
  rw [List.foldl_map]
  have hcongr : ∀ x ∈ (Nat.digits 10 n).reverse, ∀ a : Nat,
      10 * a + ((Nat.digitChar x).toNat - 48) = 10 * a + x := by
    intro x hx a
    have hx10 : x < 10 :=
      Nat.digits_lt_base (by omega) (List.mem_reverse.mp hx)
    have hd : (Nat.digitChar x).toNat - 48 = x := by
      interval_cases x <;> rfl
    rw [hd]
  rw [foldl_congr_mem _ _ _ hcongr 0, foldl_reverse_ofDigits,
    Nat.ofDigits_digits]

/-- The decimal reading inverts the zero-padded rendering. -/
theorem parseDec_pad5 (n : Nat) : parseDec (pad5 n).data = n := by
  have hdata : (pad5 n).data =
      List.replicate (5 - (decChars n).length) '0' ++ decChars n := rfl
  rw [hdata, parseDec_replicate_zero, parseDec_decChars]

/-- Below 100000 the zero-padded rendering has exactly five characters. -/
theorem pad5_length (n : Nat) (h : n < 100000) :
    (pad5 n).data.length = 5 := by
  have hdata : (pad5 n).data =
      List.replicate (5 - (decChars n).length) '0' ++ decChars n := rfl
  have hlen : (decChars n).length ≤ 5 := by
    unfold decChars
    rw [List.length_map, List.length_reverse]
    by_cases h0 : n = 0
    · subst h0
      simp
    · by_contra hlen
      push_neg at hlen
      have h6 : (10 : Nat) ^ 6 ≤ 10 ^ (Nat.digits 10 n).length :=
        Nat.pow_le_pow_right (by omega) (by omega)
      have hb := Nat.base_pow_length_digits_le 10 n (by omega) h0
      have hval : (10 : Nat) ^ 6 = 1000000 := by norm_num
      omega
  rw [hdata, List.length_append, List.length_replicate]
  omega

/-- Two character lists that clash below both lengths have distinct
extensions. -/
theorem append_ne_of_clash (a b r s : List Char)
    (h : charClash a b = true) : a ++ r ≠ b ++ s := by
  intro heq
  unfold charClash at h
  simp only [List.any_eq_true, List.mem_range] at h
  obtain ⟨k, hk, hne⟩ := h
  have hka : k < a.length := lt_of_lt_of_le hk (min_le_left _ _)
  have hkb : k < b.length := lt_of_lt_of_le hk (min_le_right _ _)
  have h1 : (a ++ r).getD k ' ' = a.getD k ' ' :=
    List.getD_append a r ' ' k hka
  have h2 : (b ++ s).getD k ' ' = b.getD k ' ' :=
    List.getD_append b s ' ' k hkb
  rw [heq, h2] at h1
  simp only [Bool.not_eq_true', beq_eq_false_iff_ne, ne_eq] at hne
  exact hne h1.symm

/-- The five kind headers pairwise clash. -/
theorem ktHeader_clash : ∀ kt1 ∈ keTypes, ∀ kt2 ∈ keTypes, kt1 ≠ kt2 →
    charClash (ktHeader kt1).data (ktHeader kt2).data = true := by
  decide

/-- Character decomposition of a sequential identifier. -/
theorem mkSeqId_data (kt : String) (c : Nat) (n : String) :
    (mkSeqId kt c n).data =
      (ktHeader kt).data ++ ((pad5 c).data ++ ('/' :: n.data)) := by
  unfold mkSeqId ktHeader
  simp [String.data_append, List.append_assoc]

/-- The counter of a sequential identifier is recoverable: two equal
identifiers built from the five kinds with counters below 100000 carry
the same counter, whatever the kinds and names. -/
theorem mkSeqId_counter_inj (kt1 kt2 : String) (c1 c2 : Nat)
    (n1 n2 : String) (h1 : kt1 ∈ keTypes) (h2 : kt2 ∈ keTypes)
    (hc1 : c1 < 100000) (hc2 : c2 < 100000)
    (heq : mkSeqId kt1 c1 n1 = mkSeqId kt2 c2 n2) : c1 = c2 := by
  have hdata := congrArg String.data heq
  rw [mkSeqId_data, mkSeqId_data] at hdata
  by_cases hkt : kt1 = kt2
  · subst hkt
    have hrest := List.append_cancel_left hdata
    have hpad := (List.append_inj hrest
      (by rw [pad5_length c1 hc1, pad5_length c2 hc2])).1
    have hp1 := parseDec_pad5 c1
    have hp2 := parseDec_pad5 c2
    rw [← hp1, ← hp2, hpad]
  · exact absurd hdata
      (append_ne_of_clash _ _ _ _ (ktHeader_clash kt1 h1 kt2 h2 hkt))

/-- `flatMap` over a mapped list. -/
theorem flatMap_map_helper {α β γ : Type} (f : α → β) (g : β → List γ)
    (l : List α) : (l.map f).flatMap g = l.flatMap fun x => g (f x) :=
  List.flatMap_map f g l

/-- Setting a list position to the value it already holds is the
identity. -/
theorem set_self_of_getElem {α : Type} (l : List α) (i : Nat) (a : α)
    (h : l[i]? = some a) : l.set i a = l := by
  apply List.ext_getElem?
  intro n
  rw [List.getElem?_set]
  by_cases hin : i = n
  · subst hin
    have hlt : i < l.length := (List.getElem?_eq_some.mp h).1
    rw [if_pos rfl, if_pos hlt, h]
  · rw [if_neg hin]

/-- `flatMap` congruence on the members. -/
theorem flatMap_congr_helper {α β : Type} (l : List α) (f g : α → List β)
    (h : ∀ x ∈ l, f x = g x) : l.flatMap f = l.flatMap g := by
  induction l with
  | nil => rfl
  | cons a tl ih =>
      rw [List.flatMap_cons, List.flatMap_cons,
        h a (List.mem_cons_self a tl)]
      rw [ih fun x hx => h x (List.mem_cons_of_mem a hx)]

/-- `sub_id` rewrites only non-`@id` fields, so every `@id` column and the
participant shape are untouched. -/
theorem docIds_sub_id (t r : String) (d : Doc) :
    docIds (sub_id t r d) = docIds d := by
  unfold docIds sub_id participantShape
  simp only [List.map_map, flatMap_map_helper]
  have hev : ∀ e : Event,
      (subIdEvent t r e).participants.map Participant.atId =
        e.participants.map Participant.atId := by
    intro e
    show (e.participants.map (subIdPart t r)).map Participant.atId = _
    rw [List.map_map]
    rfl
  have hlen : ∀ e : Event,
      (subIdEvent t r e).participants.length = e.participants.length := by
    intro e
    show (e.participants.map (subIdPart t r)).length = _
    rw [List.length_map]
  simp only [DocIds.mk.injEq]
  refine ⟨rfl, rfl, rfl, rfl, rfl, ?_, ?_⟩
  · exact flatMap_congr_helper _ _ _ fun e _ => hev e
  · exact List.map_congr_left fun e _ => hlen e

/-- Mapping a pointwise-getElem-consistent function over `range` recovers a
map over the list itself. -/
theorem map_range_getElem {α β : Type} (l : List α) (f : Nat → β)
    (g : α → β) (h : ∀ j x, l[j]? = some x → f j = g x) :
    (List.range l.length).map f = l.map g := by
  apply List.ext_getElem
  · rw [List.length_map, List.length_map, List.length_range]
  · intro n h1 h2
    simp only [List.length_map, List.length_range] at h1 h2
    rw [List.getElem_map, List.getElem_map, List.getElem_range]
    exact h n (l.get ⟨n, h2⟩) (List.getElem?_eq_getElem h2)

/-- Flat-mapping a pointwise-getElem-consistent function over `range`
recovers a flat map over the list itself. -/
theorem flatMap_range_getElem {α β : Type} (l : List α) (F : Nat → List β)
    (G : α → List β) (h : ∀ j x, l[j]? = some x → F j = G x) :
    (List.range l.length).flatMap F = l.flatMap G := by
  induction l generalizing F with
  | nil => rfl
  | cons a tl ih =>
      rw [List.length_cons, List.range_succ_eq_map, List.flatMap_cons,
        flatMap_map_helper, List.flatMap_cons]
      congr 1
      · exact h 0 a List.getElem?_cons_zero
      · exact ih (fun j => F (Nat.succ j)) fun j x hx =>
          h (j + 1) x (by rw [List.getElem?_cons_succ]; exact hx)

/-- The flattened participant `@id` column is the path list mapped through
the path-indexed lookup. -/
theorem parts_eq_map_paths (d : Doc) :
    (d.events.flatMap fun e => e.participants.map Participant.atId) =
      (participantPaths d).map (partAtIdAt d) := by
  unfold participantPaths pathsOfShape
  rw [List.map_flatMap]
  have hlen : (participantShape d).length = d.events.length := by
    unfold participantShape
    rw [List.length_map]
  rw [hlen]
  symm
  apply flatMap_range_getElem
  intro i e hie
  rw [List.map_map]
  have hshape : (participantShape d).getD i 0 = e.participants.length := by
    unfold participantShape
    rw [List.getD_eq_getElem?_getD, List.getElem?_map, hie]
    rfl
  rw [hshape]
  apply map_range_getElem
  intro j p hjp
  show partAtIdAt d (i, j) = p.atId
  simp only [partAtIdAt, hie, hjp]

/-- Effect of one `Entities` renumbering step on the `@id` columns: the
entity column is set at the step's index, everything else is untouched. -/
theorem docIds_fixEntityAt (c i : Nat) (d : Doc) (x : Entity)
    (hx : d.entities[i]? = some x) :
    docIds (fixEntityAt c i d) =
      { docIds d with
          ents := (docIds d).ents.set i
            (mkSeqId "Entities" c (x.name.replace " " "_")) } := by
  simp only [fixEntityAt, hx]
  rw [docIds_sub_id]
  simp only [docIds, participantShape, List.map_set, DocIds.mk.injEq]

/-- Replacing a list element by one with the same image under `f` leaves
the flat map unchanged. -/
theorem flatMap_set_helper {α β : Type} (l : List α) (f : α → List β)
    (i : Nat) (a x : α) (hx : l[i]? = some x) (hfa : f a = f x) :
    (l.set i a).flatMap f = l.flatMap f := by
  induction l generalizing i with
  | nil => rfl
  | cons b tl ih =>
      cases i with
      | zero =>
          rw [List.getElem?_cons_zero] at hx
          rw [List.set_cons_zero, List.flatMap_cons, List.flatMap_cons,
            hfa, Option.some.inj hx]
      | succ j =>
          rw [List.getElem?_cons_succ] at hx
          rw [List.set_cons_succ, List.flatMap_cons, List.flatMap_cons,
            ih j hx]

/-- Effect of one `Events` renumbering step on the `@id` columns: only
the event column changes; the renamed event keeps its participants and
children, so the participant column and the shape are untouched. -/
theorem docIds_fixEventAt (c i : Nat) (d : Doc) (x : Event)
    (hx : d.events[i]? = some x) :
    docIds (fixEventAt c i d) =
      { docIds d with
          evs := (docIds d).evs.set i
            (mkSeqId "Events" c (x.name.replace " " "_")) } := by
  simp only [fixEventAt, hx]
  rw [docIds_sub_id]
  simp only [docIds, participantShape, List.map_set, DocIds.mk.injEq]
  refine ⟨trivial, trivial, trivial, trivial, trivial, ?_, ?_⟩
  · exact flatMap_set_helper _ _ _ _ _ hx rfl
  · apply set_self_of_getElem
    rw [List.getElem?_map, hx]
    rfl

/-- Effect of one `Relations` renumbering step on the `@id` columns. -/
theorem docIds_fixRelationAt (c i : Nat) (d : Doc) (x : Relation)
    (hx : d.relations[i]? = some x) :
    docIds (fixRelationAt c i d) =
      { docIds d with
          rels := (docIds d).rels.set i
            (mkSeqId "Relations" c (x.wd_label.replace " " "_")) } := by
  simp only [fixRelationAt, hx]
  rw [docIds_sub_id]
  simp only [docIds, participantShape, List.map_set, DocIds.mk.injEq]

/-- Effect of one `Instances` renumbering step on the `@id` columns. -/
theorem docIds_fixInstAt (c i : Nat) (d : Doc) (x : Inst)
    (hx : d.instances[i]? = some x) :
    docIds (fixInstAt c i d) =
      { docIds d with
          insts := (docIds d).insts.set i
            (mkSeqId "Instances" c (x.name.replace " " "_")) } := by
  simp only [fixInstAt, hx]
  rw [docIds_sub_id]
  simp only [docIds, participantShape, List.map_set, DocIds.mk.injEq]

/-- A `fix_for_ke_type` pass over indices `0, …, n-1` whose step assigns
the sequential identifier at its index and leaves the remaining columns
alone: after the pass the observed column has every position below `n`
holding the sequential identifier for counter `c0 + position`, its length
is unchanged, and the remaining columns are unchanged. -/
theorem fixPhase_assigns (stepAt : Nat → Nat → Doc → Doc) (kind : String)
    (obs : Doc → List String) (rest : Doc → DocIds)
    (hstep : ∀ c i d0, i < (obs d0).length →
      ∃ nm, obs (stepAt c i d0) = (obs d0).set i (mkSeqId kind c nm) ∧
        rest (stepAt c i d0) = rest d0)
    (c0 : Nat) (d : Doc) :
    ∀ n, n ≤ (obs d).length →
      (obs (fixPhase stepAt c0 n d)).length = (obs d).length ∧
      rest (fixPhase stepAt c0 n d) = rest d ∧
      ∀ i, i < n → ∃ nm,
        (obs (fixPhase stepAt c0 n d))[i]? =
          some (mkSeqId kind (c0 + i) nm) := by
  intro n
  induction n with
  | zero =>
      intro _
      exact ⟨rfl, rfl, fun i hi => absurd hi (by omega)⟩
  | succ m ih =>
      intro hn
      obtain ⟨hlen, hrest, hass⟩ := ih (by omega)
      have hphase : fixPhase stepAt c0 (m + 1) d =
          stepAt (c0 + m) m (fixPhase stepAt c0 m d) := by
        unfold fixPhase
        rw [List.range_succ, List.foldl_append]
        rfl
      have hm : m < (obs (fixPhase stepAt c0 m d)).length := by omega
      obtain ⟨nm, hobs, hrest2⟩ := hstep (c0 + m) m _ hm
      refine ⟨?_, ?_, ?_⟩
      · rw [hphase, hobs, List.length_set, hlen]
      · rw [hphase, hrest2, hrest]
      · intro i hi
        by_cases him : i = m
        · subst him
          refine ⟨nm, ?_⟩
          rw [hphase, hobs, List.getElem?_set_self hm]
        · obtain ⟨nm2, h2⟩ := hass i (by omega)
          refine ⟨nm2, ?_⟩
          rw [hphase, hobs, List.getElem?_set, if_neg (by omega)]
          exact h2

/-- `partAtIdAt` when the event index is out of range. -/
theorem partAtIdAt_eq_none1 (d : Doc) (ij : Nat × Nat)
    (h : d.events[ij.1]? = none) : partAtIdAt d ij = "" := by
  simp only [partAtIdAt, h]

/-- `partAtIdAt` when the participant index is out of range. -/
theorem partAtIdAt_eq_none2 (d : Doc) (ij : Nat × Nat) (e : Event)
    (hE : d.events[ij.1]? = some e) (hp : e.participants[ij.2]? = none) :
    partAtIdAt d ij = "" := by
  simp only [partAtIdAt, hE, hp]

/-- `partAtIdAt` at a valid path. -/
theorem partAtIdAt_eq_some (d : Doc) (ij : Nat × Nat) (e : Event)
    (p : Participant) (hE : d.events[ij.1]? = some e)
    (hp : e.participants[ij.2]? = some p) : partAtIdAt d ij = p.atId := by
  simp only [partAtIdAt, hE, hp]

/-- `sub_id` never changes a participant's `@id`, so the path-indexed
lookup is invariant. -/
theorem partAtIdAt_sub_id (t r : String) (d : Doc) (ij : Nat × Nat) :
    partAtIdAt (sub_id t r d) ij = partAtIdAt d ij := by
  have hE' : (sub_id t r d).events[ij.1]? =
      (d.events[ij.1]?).map (subIdEvent t r) := by
    simp [sub_id, List.getElem?_map]
  cases hE : d.events[ij.1]? with
  | none =>
      rw [hE, Option.map_none'] at hE'
      rw [partAtIdAt_eq_none1 _ _ hE', partAtIdAt_eq_none1 _ _ hE]
  | some e =>
      rw [hE, Option.map_some'] at hE'
      have hpart : (subIdEvent t r e).participants =
          e.participants.map (subIdPart t r) := rfl
      cases hp : e.participants[ij.2]? with
      | none =>
          have hp' : (subIdEvent t r e).participants[ij.2]? = none := by
            rw [hpart, List.getElem?_map, hp, Option.map_none']
          rw [partAtIdAt_eq_none2 _ _ _ hE' hp',
            partAtIdAt_eq_none2 _ _ _ hE hp]
      | some p =>
          have hp' : (subIdEvent t r e).participants[ij.2]? =
              some (subIdPart t r p) := by
            rw [hpart, List.getElem?_map, hp, Option.map_some']
          rw [partAtIdAt_eq_some _ _ _ _ hE' hp',
            partAtIdAt_eq_some _ _ _ _ hE hp]
          rfl

/-- Step hypothesis of the `Entities` pass for the generic pass lemma. -/
theorem fixEntityAt_hstep : ∀ (c i : Nat) (d0 : Doc),
    i < (docIds d0).ents.length →
    ∃ nm, (docIds (fixEntityAt c i d0)).ents =
        (docIds d0).ents.set i (mkSeqId "Entities" c nm) ∧
      { docIds (fixEntityAt c i d0) with ents := ([] : List String) } =
        { docIds d0 with ents := ([] : List String) } := by
  intro c i d0 hi
  have hi2 : i < d0.entities.length := by simpa [docIds] using hi
  obtain ⟨x, hx⟩ : ∃ x, d0.entities[i]? = some x :=
    ⟨_, List.getElem?_eq_getElem hi2⟩
  refine ⟨x.name.replace " " "_", ?_, ?_⟩ <;>
    rw [docIds_fixEntityAt c i d0 x hx]

/-- Step hypothesis of the `Events` pass for the generic pass lemma. -/
theorem fixEventAt_hstep : ∀ (c i : Nat) (d0 : Doc),
    i < (docIds d0).evs.length →
    ∃ nm, (docIds (fixEventAt c i d0)).evs =
        (docIds d0).evs.set i (mkSeqId "Events" c nm) ∧
      { docIds (fixEventAt c i d0) with evs := ([] : List String) } =
        { docIds d0 with evs := ([] : List String) } := by
  intro c i d0 hi
  have hi2 : i < d0.events.length := by simpa [docIds] using hi
  obtain ⟨x, hx⟩ : ∃ x, d0.events[i]? = some x :=
    ⟨_, List.getElem?_eq_getElem hi2⟩
  refine ⟨x.name.replace " " "_", ?_, ?_⟩ <;>
    rw [docIds_fixEventAt c i d0 x hx]

/-- Step hypothesis of the `Relations` pass for the generic pass lemma. -/
theorem fixRelationAt_hstep : ∀ (c i : Nat) (d0 : Doc),
    i < (docIds d0).rels.length →
    ∃ nm, (docIds (fixRelationAt c i d0)).rels =
        (docIds d0).rels.set i (mkSeqId "Relations" c nm) ∧
      { docIds (fixRelationAt c i d0) with rels := ([] : List String) } =
        { docIds d0 with rels := ([] : List String) } := by
  intro c i d0 hi
  have hi2 : i < d0.relations.length := by simpa [docIds] using hi
  obtain ⟨x, hx⟩ : ∃ x, d0.relations[i]? = some x :=
    ⟨_, List.getElem?_eq_getElem hi2⟩
  refine ⟨x.wd_label.replace " " "_", ?_, ?_⟩ <;>
    rw [docIds_fixRelationAt c i d0 x hx]

/-- Step hypothesis of the `Instances` pass for the generic pass lemma. -/
theorem fixInstAt_hstep : ∀ (c i : Nat) (d0 : Doc),
    i < (docIds d0).insts.length →
    ∃ nm, (docIds (fixInstAt c i d0)).insts =
        (docIds d0).insts.set i (mkSeqId "Instances" c nm) ∧
      { docIds (fixInstAt c i d0) with insts := ([] : List String) } =
        { docIds d0 with insts := ([] : List String) } := by
  intro c i d0 hi
  have hi2 : i < d0.instances.length := by simpa [docIds] using hi
  obtain ⟨x, hx⟩ : ∃ x, d0.instances[i]? = some x :=
    ⟨_, List.getElem?_eq_getElem hi2⟩
  refine ⟨x.name.replace " " "_", ?_, ?_⟩ <;>
    rw [docIds_fixInstAt c i d0 x hx]

/-- Paths of a shape with a leading count: the first event's participant
paths, then the remaining paths with the event index shifted. -/
theorem pathsOfShape_cons (n : Nat) (ns : List Nat) :
    pathsOfShape (n :: ns) =
      (List.range n).map (fun j => (0, j)) ++
        (pathsOfShape ns).map (fun ij => (ij.1 + 1, ij.2)) := by
  unfold pathsOfShape
  rw [List.length_cons, List.range_succ_eq_map, List.flatMap_cons,
    flatMap_map_helper, List.map_flatMap]
  congr 1
  apply flatMap_congr_helper
  intro i _
  rw [List.map_map]
  rfl

/-- Every generated path is in range of the shape. -/
theorem pathsOfShape_valid (ns : List Nat) :
    ∀ p ∈ pathsOfShape ns, p.1 < ns.length ∧ p.2 < ns.getD p.1 0 := by
  intro p hp
  unfold pathsOfShape at hp
  simp only [List.mem_flatMap, List.mem_range, List.mem_map] at hp
  obtain ⟨i, hi, j, hj, rfl⟩ := hp
  exact ⟨hi, hj⟩

/-- The generated paths are pairwise distinct. -/
theorem pathsOfShape_nodup (ns : List Nat) : (pathsOfShape ns).Nodup := by
  induction ns with
  | nil => simp [pathsOfShape]
  | cons n tl ih =>
      rw [pathsOfShape_cons, List.nodup_append]
      refine ⟨?_, ?_, ?_⟩
      · exact List.Nodup.map (fun a b h => congrArg Prod.snd h)
          (List.nodup_range n)
      · refine List.Nodup.map ?_ ih
        intro a b h
        have h1 := congrArg Prod.fst h
        have h2 := congrArg Prod.snd h
        simp only at h1 h2
        exact Prod.ext (by omega) h2
      · rw [List.disjoint_left]
        intro a ha hb
        simp only [List.mem_map, List.mem_range] at ha hb
        obtain ⟨j, _, rfl⟩ := ha
        obtain ⟨ij, _, hE⟩ := hb
        have := congrArg Prod.fst hE
        simp only at this
        omega

/-- Replacing a different event leaves a path's participant `@id`
unchanged. -/
theorem partAtIdAt_set_other_event (d : Doc) (i : Nat) (ev : Event)
    (ij2 : Nat × Nat) (hne : ij2.1 ≠ i) :
    partAtIdAt { d with events := d.events.set i ev } ij2 =
      partAtIdAt d ij2 := by
  have h : ({ d with events := d.events.set i ev }).events[ij2.1]? =
      d.events[ij2.1]? := by
    show (d.events.set i ev)[ij2.1]? = _
    rw [List.getElem?_set, if_neg (fun hh => hne hh.symm)]
  cases hE : d.events[ij2.1]? with
  | none => rw [partAtIdAt_eq_none1 _ _ (h.trans hE),
      partAtIdAt_eq_none1 _ _ hE]
  | some e =>
      cases hp : e.participants[ij2.2]? with
      | none => rw [partAtIdAt_eq_none2 _ _ _ (h.trans hE) hp,
          partAtIdAt_eq_none2 _ _ _ hE hp]
      | some p => rw [partAtIdAt_eq_some _ _ _ _ (h.trans hE) hp,
          partAtIdAt_eq_some _ _ _ _ hE hp]

/-- Replacing a different participant of the same event leaves a path's
participant `@id` unchanged. -/
theorem partAtIdAt_set_other_part (d : Doc) (i : Nat) (ev : Event)
    (j : Nat) (q : Participant) (hev : d.events[i]? = some ev)
    (ij2 : Nat × Nat) (h1 : ij2.1 = i) (h2 : ij2.2 ≠ j) :
    partAtIdAt (setPartDoc d i j ev q) ij2 = partAtIdAt d ij2 := by
  subst h1
  have hbound : ij2.1 < d.events.length := (List.getElem?_eq_some.mp hev).1
  have hE' : (setPartDoc d ij2.1 j ev q).events[ij2.1]? =
      some { ev with participants := ev.participants.set j q } := by
    show (d.events.set ij2.1 _)[ij2.1]? = _
    rw [List.getElem?_set_self hbound]
  have hpp : ({ ev with
      participants := ev.participants.set j q } : Event).participants[ij2.2]? =
      ev.participants[ij2.2]? := by
    show (ev.participants.set j q)[ij2.2]? = _
    rw [List.getElem?_set, if_neg (fun hh => h2 hh.symm)]
  cases hp : ev.participants[ij2.2]? with
  | none => rw [partAtIdAt_eq_none2 _ _ _ hE' (hpp.trans hp),
      partAtIdAt_eq_none2 _ _ _ hev hp]
  | some q2 => rw [partAtIdAt_eq_some _ _ _ _ hE' (hpp.trans hp),
      partAtIdAt_eq_some _ _ _ _ hev hp]

/-- Replacing a participant makes the path's `@id` the replacement's. -/
theorem partAtIdAt_set_assign (d : Doc) (i j : Nat) (ev : Event)
    (q : Participant) (hev : d.events[i]? = some ev)
    (hj : j < ev.participants.length) :
    partAtIdAt (setPartDoc d i j ev q) (i, j) = q.atId := by
  have hbound : i < d.events.length := (List.getElem?_eq_some.mp hev).1
  apply partAtIdAt_eq_some _ _
    { ev with participants := ev.participants.set j q } q
  · show (d.events.set i _)[i]? = _
    rw [List.getElem?_set_self hbound]
  · show (ev.participants.set j q)[j]? = _
    rw [List.getElem?_set_self hj]

/-- Unfolding of a valid `Participants` step: rename the participant at
the path and rewrite the old identifier's other occurrences. -/
theorem fixParticipantAt_eq (c : Nat) (ij : Nat × Nat) (d : Doc)
    (ev : Event) (p : Participant) (hev : d.events[ij.1]? = some ev)
    (hp : ev.participants[ij.2]? = some p) :
    fixParticipantAt c ij d =
      sub_id p.atId (mkSeqId "Participants" c (lastSegment p.entity))
        (setPartDoc d ij.1 ij.2 ev
          { p with atId := mkSeqId "Participants" c (lastSegment p.entity) }) := by
  simp only [fixParticipantAt, setPartDoc, hev, hp]

/-- Effect of one valid `Participants` step: the path's `@id` becomes the
sequential identifier, every other path is untouched, and all other `@id`
columns and the shape are untouched. -/
theorem fixParticipantAt_spec (c : Nat) (ij : Nat × Nat) (d : Doc)
    (ev : Event) (p : Participant) (hev : d.events[ij.1]? = some ev)
    (hp : ev.participants[ij.2]? = some p) :
    (∀ ij2, ij2 ≠ ij →
      partAtIdAt (fixParticipantAt c ij d) ij2 = partAtIdAt d ij2) ∧
    partAtIdAt (fixParticipantAt c ij d) ij =
      mkSeqId "Participants" c (lastSegment p.entity) ∧
    { docIds (fixParticipantAt c ij d) with parts := ([] : List String) } =
      { docIds d with parts := ([] : List String) } := by
  rw [fixParticipantAt_eq c ij d ev p hev hp]
  refine ⟨?_, ?_, ?_⟩
  · intro ij2 hne
    rw [partAtIdAt_sub_id]
    by_cases hi : ij2.1 = ij.1
    · exact partAtIdAt_set_other_part d ij.1 ev ij.2 _ hev ij2 hi
        (fun h => hne (Prod.ext hi h))
    · exact partAtIdAt_set_other_event d ij.1 _ ij2 hi
  · rw [partAtIdAt_sub_id]
    have hj : ij.2 < ev.participants.length := (List.getElem?_eq_some.mp hp).1
    have h := partAtIdAt_set_assign d ij.1 ij.2 ev
      { p with atId := mkSeqId "Participants" c (lastSegment p.entity) }
      hev hj
    simpa using h
  · rw [docIds_sub_id]
    simp only [setPartDoc, docIds, participantShape, List.map_set,
      DocIds.mk.injEq]
    refine ⟨trivial, ?_, trivial, trivial, trivial, trivial, ?_⟩
    · apply set_self_of_getElem
      rw [List.getElem?_map, hev]
      rfl
    · apply set_self_of_getElem
      rw [List.getElem?_map, hev, List.length_set]
      rfl

/-- The enumerated fold of the `Participants` pass is the structural
recursion `runParts`. -/
theorem runParts_eq_enumFrom : ∀ (ps : List (Nat × Nat)) (k0 c0 : Nat)
    (d : Doc),
    (List.enumFrom k0 ps).foldl
      (fun acc kij => fixParticipantAt (c0 + kij.1) kij.2 acc) d =
      runParts (c0 + k0) ps d := by
  intro ps
  induction ps with
  | nil => intro k0 c0 d; rfl
  | cons p rest ih =>
      intro k0 c0 d
      show (List.enumFrom (k0 + 1) rest).foldl
        (fun acc kij => fixParticipantAt (c0 + kij.1) kij.2 acc)
        (fixParticipantAt (c0 + k0) p d) = _
      rw [ih (k0 + 1) c0 (fixParticipantAt (c0 + k0) p d)]
      show runParts (c0 + (k0 + 1)) rest _ = runParts (c0 + k0 + 1) rest _
      rw [Nat.add_assoc]

/-- The `Participants` pass as `runParts` over the document's paths. -/
theorem fixParticipantsPhase_eq_runParts (c0 : Nat) (d : Doc) :
    fixParticipantsPhase c0 d = runParts c0 (participantPaths d) d := by
  unfold fixParticipantsPhase
  have h := runParts_eq_enumFrom (participantPaths d) 0 c0 d
  rw [Nat.add_zero] at h
  exact h

/-- Running the `Participants` steps over distinct in-range paths: every
path at position `k` of the list receives the sequential identifier for
counter `c0 + k`, paths outside the list and all other `@id` columns and
the shape are untouched. -/
theorem runParts_spec (ps : List (Nat × Nat)) : ∀ (c0 : Nat) (d : Doc),
    (∀ q ∈ ps, q.1 < d.events.length ∧
      q.2 < (participantShape d).getD q.1 0) →
    ps.Nodup →
    ({ docIds (runParts c0 ps d) with parts := ([] : List String) } =
      { docIds d with parts := ([] : List String) }) ∧
    (∀ ij, ij ∉ ps →
      partAtIdAt (runParts c0 ps d) ij = partAtIdAt d ij) ∧
    ∀ k, k < ps.length → ∃ nm,
      partAtIdAt (runParts c0 ps d) (ps.getD k (0, 0)) =
        mkSeqId "Participants" (c0 + k) nm := by
  induction ps with
  | nil =>
      intro c0 d _ _
      exact ⟨rfl, fun ij _ => rfl, fun k hk => absurd hk (by simp)⟩
  | cons p rest ih =>
      intro c0 d hvalid hnodup
      obtain ⟨hi, hj⟩ := hvalid p (List.mem_cons_self p rest)
      obtain ⟨ev, hev⟩ : ∃ ev, d.events[p.1]? = some ev :=
        ⟨_, List.getElem?_eq_getElem hi⟩
      have hsh : (participantShape d).getD p.1 0 =
          ev.participants.length := by
        unfold participantShape
        rw [List.getD_eq_getElem?_getD, List.getElem?_map, hev]
        rfl
      rw [hsh] at hj
      obtain ⟨pp, hpp⟩ : ∃ pp, ev.participants[p.2]? = some pp :=
        ⟨_, List.getElem?_eq_getElem hj⟩
      obtain ⟨hframe1, hassign1, hrest1⟩ :=
        fixParticipantAt_spec c0 p d ev pp hev hpp
      have hshape1 : participantShape (fixParticipantAt c0 p d) =
          participantShape d := congrArg DocIds.shape hrest1
      have hevlen1 : (fixParticipantAt c0 p d).events.length =
          d.events.length := by
        have h1 := congrArg List.length hshape1
        simpa [participantShape] using h1
      have hvalid' : ∀ q ∈ rest,
          q.1 < (fixParticipantAt c0 p d).events.length ∧
          q.2 < (participantShape (fixParticipantAt c0 p d)).getD q.1 0 := by
        intro q hq
        obtain ⟨h1, h2⟩ := hvalid q (List.mem_cons_of_mem p hq)
        exact ⟨by rw [hevlen1]; exact h1, by rw [hshape1]; exact h2⟩
      obtain ⟨hrest2, hframe2, hass2⟩ := ih (c0 + 1)
        (fixParticipantAt c0 p d) hvalid' (List.Nodup.of_cons hnodup)
      have hrunp : runParts c0 (p :: rest) d =
          runParts (c0 + 1) rest (fixParticipantAt c0 p d) := rfl
      refine ⟨?_, ?_, ?_⟩
      · rw [hrunp, hrest2, hrest1]
      · intro ij hij
        have hne1 : ij ≠ p := fun h => hij (h ▸ List.mem_cons_self p rest)
        have hne2 : ij ∉ rest := fun h => hij (List.mem_cons_of_mem p h)
        rw [hrunp, hframe2 ij hne2, hframe1 ij hne1]
      · intro k hk
        cases k with
        | zero =>
            refine ⟨lastSegment pp.entity, ?_⟩
            have hp_not_mem : p ∉ rest := (List.nodup_cons.mp hnodup).1
            rw [Nat.add_zero]
            show partAtIdAt
              (runParts (c0 + 1) rest (fixParticipantAt c0 p d)) p = _
            rw [hframe2 p hp_not_mem, hassign1]
        | succ m =>
            obtain ⟨nm, hm⟩ := hass2 m (by
              rw [List.length_cons] at hk
              omega)
            refine ⟨nm, ?_⟩
            have harith : c0 + (m + 1) = c0 + 1 + m := by omega
            rw [hrunp, harith]
            show partAtIdAt _ ((p :: rest).getD (m + 1) (0, 0)) = _
            rw [List.getD_cons_succ]
            exact hm

/-- `renumberedIds` is the concatenation of the five renumbered `@id`
columns. -/
theorem renumberedIds_eq_docIds (x : Doc) :
    renumberedIds x = (docIds x).ents ++ (docIds x).evs ++ (docIds x).rels
      ++ (docIds x).insts ++ (docIds x).parts := rfl

/-- Position analysis of a five-way concatenation. -/
theorem getElem?_append5_cases {α : Type} (s1 s2 s3 s4 s5 : List α)
    (k : Nat) (x : α) (h : (s1 ++ s2 ++ s3 ++ s4 ++ s5)[k]? = some x) :
    (k < s1.length ∧ s1[k]? = some x) ∨
    (s1.length ≤ k ∧ k < s1.length + s2.length ∧
      s2[k - s1.length]? = some x) ∨
    (s1.length + s2.length ≤ k ∧
      k < s1.length + s2.length + s3.length ∧
      s3[k - s1.length - s2.length]? = some x) ∨
    (s1.length + s2.length + s3.length ≤ k ∧
      k < s1.length + s2.length + s3.length + s4.length ∧
      s4[k - s1.length - s2.length - s3.length]? = some x) ∨
    (s1.length + s2.length + s3.length + s4.length ≤ k ∧
      s5[k - s1.length - s2.length - s3.length - s4.length]? = some x) := by
  have lab : (s1 ++ s2).length = s1.length + s2.length := by
    simp [List.length_append]
  have labc : (s1 ++ s2 ++ s3).length =
      s1.length + s2.length + s3.length := by
    simp [List.length_append]
    omega
  have labcd : (s1 ++ s2 ++ s3 ++ s4).length =
      s1.length + s2.length + s3.length + s4.length := by
    simp [List.length_append]
    omega
  rw [List.getElem?_append] at h
  by_cases h4 : k < (s1 ++ s2 ++ s3 ++ s4).length
  · rw [if_pos h4] at h
    rw [List.getElem?_append] at h
    by_cases h3 : k < (s1 ++ s2 ++ s3).length
    · rw [if_pos h3] at h
      rw [List.getElem?_append] at h
      by_cases h2 : k < (s1 ++ s2).length
      · rw [if_pos h2] at h
        rw [List.getElem?_append] at h
        by_cases h1 : k < s1.length
        · rw [if_pos h1] at h
          exact Or.inl ⟨h1, h⟩
        · rw [if_neg h1] at h
          exact Or.inr (Or.inl ⟨by omega, by omega, h⟩)
      · rw [if_neg h2, lab] at h
        have hidx : k - (s1.length + s2.length) =
            k - s1.length - s2.length := by omega
        rw [hidx] at h
        exact Or.inr (Or.inr (Or.inl ⟨by omega, by omega, h⟩))
    · rw [if_neg h3, labc] at h
      have hidx : k - (s1.length + s2.length + s3.length) =
          k - s1.length - s2.length - s3.length := by omega
      rw [hidx] at h
      exact Or.inr (Or.inr (Or.inr (Or.inl ⟨by omega, by omega, h⟩)))
  · rw [if_neg h4, labcd] at h
    have hidx : k - (s1.length + s2.length + s3.length + s4.length) =
        k - s1.length - s2.length - s3.length - s4.length := by omega
    rw [hidx] at h
    exact Or.inr (Or.inr (Or.inr (Or.inr ⟨by omega, h⟩)))

/-- Components of a `DocIds` equality with the entity column erased. -/
theorem restEnts_elim {r s : DocIds}
    (h : ({ r with ents := ([] : List String) } : DocIds) =
      { s with ents := ([] : List String) }) :
    r.evs = s.evs ∧ r.rels = s.rels ∧ r.insts = s.insts ∧
      r.provs = s.provs ∧ r.parts = s.parts ∧ r.shape = s.shape := by
  cases r
  cases s
  simp only [DocIds.mk.injEq] at h
  exact ⟨h.2.1, h.2.2.1, h.2.2.2.1, h.2.2.2.2.1, h.2.2.2.2.2.1,
    h.2.2.2.2.2.2⟩

/-- Components of a `DocIds` equality with the event column erased. -/
theorem restEvs_elim {r s : DocIds}
    (h : ({ r with evs := ([] : List String) } : DocIds) =
      { s with evs := ([] : List String) }) :
    r.ents = s.ents ∧ r.rels = s.rels ∧ r.insts = s.insts ∧
      r.provs = s.provs ∧ r.parts = s.parts ∧ r.shape = s.shape := by
  cases r
  cases s
  simp only [DocIds.mk.injEq] at h
  exact ⟨h.1, h.2.2.1, h.2.2.2.1, h.2.2.2.2.1, h.2.2.2.2.2.1,
    h.2.2.2.2.2.2⟩

/-- Components of a `DocIds` equality with the relation column erased. -/
theorem restRels_elim {r s : DocIds}
    (h : ({ r with rels := ([] : List String) } : DocIds) =
      { s with rels := ([] : List String) }) :
    r.ents = s.ents ∧ r.evs = s.evs ∧ r.insts = s.insts ∧
      r.provs = s.provs ∧ r.parts = s.parts ∧ r.shape = s.shape := by
  cases r
  cases s
  simp only [DocIds.mk.injEq] at h
  exact ⟨h.1, h.2.1, h.2.2.2.1, h.2.2.2.2.1, h.2.2.2.2.2.1,
    h.2.2.2.2.2.2⟩

/-- Components of a `DocIds` equality with the instance column erased. -/
theorem restInsts_elim {r s : DocIds}
    (h : ({ r with insts := ([] : List String) } : DocIds) =
      { s with insts := ([] : List String) }) :
    r.ents = s.ents ∧ r.evs = s.evs ∧ r.rels = s.rels ∧
      r.provs = s.provs ∧ r.parts = s.parts ∧ r.shape = s.shape := by
  cases r
  cases s
  simp only [DocIds.mk.injEq] at h
  exact ⟨h.1, h.2.1, h.2.2.1, h.2.2.2.2.1, h.2.2.2.2.2.1,
    h.2.2.2.2.2.2⟩

/-- Components of a `DocIds` equality with the participant column
erased. -/
theorem restParts_elim {r s : DocIds}
    (h : ({ r with parts := ([] : List String) } : DocIds) =
      { s with parts := ([] : List String) }) :
    r.ents = s.ents ∧ r.evs = s.evs ∧ r.rels = s.rels ∧
      r.insts = s.insts ∧ r.provs = s.provs ∧ r.shape = s.shape := by
  cases r
  cases s
  simp only [DocIds.mk.injEq] at h
  exact ⟨h.1, h.2.1, h.2.2.1, h.2.2.2.1, h.2.2.2.2.1, h.2.2.2.2.2.2⟩

/-- The assigned-identifier characterization of `fix_atIds`: the five
renumbered columns concatenate to a list whose entry at every position
`k` is a sequential identifier with counter exactly `k` (and one of the
five kind tags), the total count is the document's element count, and
`provenanceData` identifiers are untouched. -/
theorem renumberedIds_spec (d : Doc) :
    (renumberedIds (fix_atIds d)).length =
      d.entities.length + d.events.length + d.relations.length +
        d.instances.length + (participantPaths d).length ∧
    (fix_atIds d).provenanceData.map Prov.atId =
      d.provenanceData.map Prov.atId ∧
    ∀ k x, (renumberedIds (fix_atIds d))[k]? = some x →
      ∃ kt nm, kt ∈ keTypes ∧ x = mkSeqId kt k nm := by
  obtain ⟨hlenE, hrestE, hassE⟩ :=
    fixPhase_assigns fixEntityAt "Entities" (fun d0 => (docIds d0).ents)
      (fun d0 => { docIds d0 with ents := ([] : List String) })
      fixEntityAt_hstep 0 d d.entities.length (by simp [docIds])
  obtain ⟨d1, hd1⟩ : ∃ d1, fixPhase fixEntityAt 0 d.entities.length d = d1 :=
    ⟨_, rfl⟩
  rw [hd1] at hlenE hrestE hassE
  have hlenE2 : (docIds d1).ents.length = (docIds d).ents.length := hlenE
  have hassE2 : ∀ i, i < d.entities.length → ∃ nm,
      (docIds d1).ents[i]? = some (mkSeqId "Entities" (0 + i) nm) := hassE
  obtain ⟨hevs1, hrels1, hinsts1, hprovs1, hparts1, hshape1⟩ :=
    restEnts_elim hrestE
  have hVlen : d1.events.length = d.events.length := by
    have h := congrArg List.length hevs1
    simpa [docIds] using h
  obtain ⟨hlenV, hrestV, hassV⟩ :=
    fixPhase_assigns fixEventAt "Events" (fun d0 => (docIds d0).evs)
      (fun d0 => { docIds d0 with evs := ([] : List String) })
      fixEventAt_hstep d.entities.length d1 d1.events.length
      (by simp [docIds])
  obtain ⟨d2, hd2⟩ : ∃ d2,
      fixPhase fixEventAt d.entities.length d1.events.length d1 = d2 :=
    ⟨_, rfl⟩
  rw [hd2] at hlenV hrestV hassV
  have hlenV2 : (docIds d2).evs.length = (docIds d1).evs.length := hlenV
  have hassV2 : ∀ i, i < d1.events.length → ∃ nm,
      (docIds d2).evs[i]? =
        some (mkSeqId "Events" (d.entities.length + i) nm) := hassV
  obtain ⟨hents2, hrels2, hinsts2, hprovs2, hparts2, hshape2⟩ :=
    restEvs_elim hrestV
  have hRlen : d2.relations.length = d.relations.length := by
    have h := congrArg List.length (hrels2.trans hrels1)
    simpa [docIds] using h
  obtain ⟨hlenR, hrestR, hassR⟩ :=
    fixPhase_assigns fixRelationAt "Relations"
      (fun d0 => (docIds d0).rels)
      (fun d0 => { docIds d0 with rels := ([] : List String) })
      fixRelationAt_hstep (d.entities.length + d1.events.length) d2
      d2.relations.length (by simp [docIds])
  obtain ⟨d3, hd3⟩ : ∃ d3,
      fixPhase fixRelationAt (d.entities.length + d1.events.length)
        d2.relations.length d2 = d3 :=
    ⟨_, rfl⟩
  rw [hd3] at hlenR hrestR hassR
  have hlenR2 : (docIds d3).rels.length = (docIds d2).rels.length := hlenR
  have hassR2 : ∀ i, i < d2.relations.length → ∃ nm,
      (docIds d3).rels[i]? =
        some (mkSeqId "Relations"
          (d.entities.length + d1.events.length + i) nm) := hassR
  obtain ⟨hents3, hevs3, hinsts3, hprovs3, hparts3, hshape3⟩ :=
    restRels_elim hrestR
  have hIlen : d3.instances.length = d.instances.length := by
    have h := congrArg List.length (hinsts3.trans (hinsts2.trans hinsts1))
    simpa [docIds] using h
  obtain ⟨hlenI, hrestI, hassI⟩ :=
    fixPhase_assigns fixInstAt "Instances" (fun d0 => (docIds d0).insts)
      (fun d0 => { docIds d0 with insts := ([] : List String) })
      fixInstAt_hstep
      (d.entities.length + d1.events.length + d2.relations.length) d3
      d3.instances.length (by simp [docIds])
  obtain ⟨d4, hd4⟩ : ∃ d4,
      fixPhase fixInstAt
        (d.entities.length + d1.events.length + d2.relations.length)
        d3.instances.length d3 = d4 :=
    ⟨_, rfl⟩
  rw [hd4] at hlenI hrestI hassI
  have hlenI2 : (docIds d4).insts.length = (docIds d3).insts.length := hlenI
  have hassI2 : ∀ i, i < d3.instances.length → ∃ nm,
      (docIds d4).insts[i]? =
        some (mkSeqId "Instances"
          (d.entities.length + d1.events.length + d2.relations.length + i)
          nm) := hassI
  obtain ⟨hents4, hevs4, hrels4, hprovs4, hparts4, hshape4⟩ :=
    restInsts_elim hrestI
  have hshape4d0 : (docIds d4).shape = (docIds d).shape :=
    hshape4.trans (hshape3.trans (hshape2.trans hshape1))
  have hshape4d : participantShape d4 = participantShape d := hshape4d0
  have hpaths_eq : participantPaths d4 = participantPaths d := by
    unfold participantPaths
    rw [hshape4d]
  have hvalidP : ∀ q ∈ participantPaths d4, q.1 < d4.events.length ∧
      q.2 < (participantShape d4).getD q.1 0 := by
    intro q hq
    obtain ⟨h1, h2⟩ := pathsOfShape_valid (participantShape d4) q hq
    refine ⟨?_, h2⟩
    have hl : (participantShape d4).length = d4.events.length := by
      simp [participantShape]
    omega
  have hnodupP : (participantPaths d4).Nodup :=
    pathsOfShape_nodup (participantShape d4)
  obtain ⟨hrestP, hframeP, hassP⟩ := runParts_spec (participantPaths d4)
    (d.entities.length + d1.events.length + d2.relations.length +
      d3.instances.length) d4 hvalidP hnodupP
  obtain ⟨run, hrunE⟩ : ∃ r,
      runParts
        (d.entities.length + d1.events.length + d2.relations.length +
          d3.instances.length) (participantPaths d4) d4 = r :=
    ⟨_, rfl⟩
  rw [hrunE] at hrestP hframeP hassP
  obtain ⟨hentsP, hevsP, hrelsP, hinstsP, hprovsP, hshapeP⟩ :=
    restParts_elim hrestP
  have hfix : fix_atIds d =
      fixParticipantsPhase
        (d.entities.length + d1.events.length + d2.relations.length +
          d3.instances.length) d4 := by
    simp only [fix_atIds]
    rw [hd1, hd2, hd3, hd4]
  have hfix2 : fix_atIds d = run := by
    rw [hfix, fixParticipantsPhase_eq_runParts, hrunE]
  have hents5 : (docIds run).ents = (docIds d1).ents :=
    hentsP.trans (hents4.trans (hents3.trans hents2))
  have hevs5 : (docIds run).evs = (docIds d2).evs :=
    hevsP.trans (hevs4.trans hevs3)
  have hrels5 : (docIds run).rels = (docIds d3).rels :=
    hrelsP.trans hrels4
  have hinsts5 : (docIds run).insts = (docIds d4).insts := hinstsP
  have hprovs5 : (docIds run).provs = (docIds d).provs :=
    hprovsP.trans
      (hprovs4.trans (hprovs3.trans (hprovs2.trans hprovs1)))
  have hshape50 : (docIds run).shape = (docIds d4).shape := hshapeP
  have hshape5 : participantShape run = participantShape d4 := hshape50
  have hparts5 : (docIds run).parts =
      (participantPaths d4).map (partAtIdAt run) := by
    have h1 : (docIds run).parts =
        (participantPaths run).map (partAtIdAt run) := parts_eq_map_paths run
    rw [h1]
    have h2 : participantPaths run = participantPaths d4 := by
      unfold participantPaths
      rw [hshape5]
    rw [h2]
  have l1 : (docIds d1).ents.length = d.entities.length := by
    rw [hlenE2]
    simp [docIds]
  have l2 : (docIds d2).evs.length = d.events.length := by
    rw [hlenV2]
    simpa [docIds] using hVlen
  have l3 : (docIds d3).rels.length = d.relations.length := by
    rw [hlenR2]
    simpa [docIds] using hRlen
  have l4 : (docIds d4).insts.length = d.instances.length := by
    rw [hlenI2]
    simpa [docIds] using hIlen
  have l5 : (participantPaths d4).length = (participantPaths d).length := by
    rw [hpaths_eq]
  refine ⟨?_, ?_, ?_⟩
  · rw [hfix2, renumberedIds_eq_docIds, hents5, hevs5, hrels5, hinsts5,
      hparts5]
    simp only [List.length_append, List.length_map]
    omega
  · rw [hfix2]
    exact hprovs5
  · intro k x hkx
    rw [hfix2, renumberedIds_eq_docIds, hents5, hevs5, hrels5, hinsts5,
      hparts5] at hkx
    rcases getElem?_append5_cases _ _ _ _ _ k x hkx with
      ⟨hk1, hget⟩ | ⟨hge, hk2, hget⟩ | ⟨hge, hk3, hget⟩ |
      ⟨hge, hk4, hget⟩ | ⟨hge, hget⟩
    · obtain ⟨nm, hEk⟩ := hassE2 k (by omega)
      have hx := Option.some.inj (hget.symm.trans hEk)
      rw [Nat.zero_add] at hx
      exact ⟨"Entities", nm, by simp [keTypes], hx⟩
    · obtain ⟨nm, hEk⟩ := hassV2 (k - (docIds d1).ents.length) (by omega)
      have hx := Option.some.inj (hget.symm.trans hEk)
      have harith : d.entities.length + (k - (docIds d1).ents.length) =
          k := by omega
      rw [harith] at hx
      exact ⟨"Events", nm, by simp [keTypes], hx⟩
    · obtain ⟨nm, hEk⟩ := hassR2
        (k - (docIds d1).ents.length - (docIds d2).evs.length) (by omega)
      have hx := Option.some.inj (hget.symm.trans hEk)
      have harith : d.entities.length + d1.events.length +
          (k - (docIds d1).ents.length - (docIds d2).evs.length) = k := by
        omega
      rw [harith] at hx
      exact ⟨"Relations", nm, by simp [keTypes], hx⟩
    · obtain ⟨nm, hEk⟩ := hassI2
        (k - (docIds d1).ents.length - (docIds d2).evs.length -
          (docIds d3).rels.length) (by omega)
      have hx := Option.some.inj (hget.symm.trans hEk)
      have harith : d.entities.length + d1.events.length +
          d2.relations.length +
          (k - (docIds d1).ents.length - (docIds d2).evs.length -
            (docIds d3).rels.length) = k := by omega
      rw [harith] at hx
      exact ⟨"Instances", nm, by simp [keTypes], hx⟩
    · have hk5 : k - (docIds d1).ents.length - (docIds d2).evs.length -
          (docIds d3).rels.length - (docIds d4).insts.length <
          (participantPaths d4).length := by
        have h0 := (List.getElem?_eq_some.mp hget).1
        rw [List.length_map] at h0
        exact h0
      obtain ⟨nm, hPk⟩ := hassP
        (k - (docIds d1).ents.length - (docIds d2).evs.length -
          (docIds d3).rels.length - (docIds d4).insts.length) hk5
      have hgetd : (participantPaths d4)[k - (docIds d1).ents.length -
          (docIds d2).evs.length - (docIds d3).rels.length -
          (docIds d4).insts.length]? =
          some ((participantPaths d4).getD
            (k - (docIds d1).ents.length - (docIds d2).evs.length -
              (docIds d3).rels.length - (docIds d4).insts.length)
            (0, 0)) := by
        rw [List.getD_eq_getElem?_getD, List.getElem?_eq_getElem hk5]
        rfl
      rw [List.getElem?_map, hgetd, Option.map_some'] at hget
      have hx := Option.some.inj hget
      rw [hPk] at hx
      have harith : d.entities.length + d1.events.length +
          d2.relations.length + d3.instances.length +
          (k - (docIds d1).ents.length - (docIds d2).evs.length -
            (docIds d3).rels.length - (docIds d4).insts.length) = k := by
        omega
      rw [harith] at hx
      exact ⟨"Participants", nm, by simp [keTypes], hx.symm⟩

/-- Counterexample to C9: `fix_atIds` renumbers only the five element
collections.  On a document whose only content is `provenanceData`, the
pass is the identity, so two provenance elements sharing one `@id` keep
it — the resulting document still contains two equal identifiers — and a
non-`@id` reference (`provenanceName`) to a nonexistent entity survives
without resolving to any identifier in the document. -/
theorem fix_atIds_duplicate_prov_ids_cex :
    fix_atIds dupProvDoc = dupProvDoc ∧
    ¬ (collect_ids (fix_atIds dupProvDoc)).Nodup ∧
    "cmu:Entities/nowhere" ∈
      (fix_atIds dupProvDoc).provenanceData.map Prov.provenanceName ∧
    "cmu:Entities/nowhere" ∉ collect_ids (fix_atIds dupProvDoc) := by
  exact ⟨rfl, by decide, by decide, by decide⟩

/-- C9 (amended): the identifiers `fix_atIds` assigns are pairwise
distinct.  When the renumbered element count (entities, events,
relations, instances and flattened participants) is at most 100000 — so
the five-digit zero padding `{counter:05d}` stays faithful — the five
renumbered `@id` columns of the result are pairwise distinct, because the
shared counter embedded in each identifier equals the element's global
position; `provenanceData` identifiers are never rewritten (hence
duplicates or dangling references there survive, as the counterexample
shows). -/
theorem fix_atIds_assigned_ids_nodup (d : Doc)
    (hcount : d.entities.length + d.events.length + d.relations.length +
      d.instances.length + (participantPaths d).length ≤ 100000) :
    (renumberedIds (fix_atIds d)).Nodup ∧
    (fix_atIds d).provenanceData.map Prov.atId =
      d.provenanceData.map Prov.atId := by
  obtain ⟨hlen, hprov, hchar⟩ := renumberedIds_spec d
  refine ⟨?_, hprov⟩
  refine List.pairwise_iff_get.mpr ?_
  intro i j hij heq
  have h1 : (renumberedIds (fix_atIds d))[i.1]? =
      some ((renumberedIds (fix_atIds d)).get i) := by
    rw [List.getElem?_eq_getElem i.2, List.get_eq_getElem]
  have h2 : (renumberedIds (fix_atIds d))[j.1]? =
      some ((renumberedIds (fix_atIds d)).get j) := by
    rw [List.getElem?_eq_getElem j.2, List.get_eq_getElem]
  obtain ⟨kt1, nm1, hkt1, hx1⟩ := hchar i.1 _ h1
  obtain ⟨kt2, nm2, hkt2, hx2⟩ := hchar j.1 _ h2
  rw [heq] at hx1
  have hmk : mkSeqId kt1 i.1 nm1 = mkSeqId kt2 j.1 nm2 :=
    hx1.symm.trans hx2
  have hib : i.1 < 100000 := by
    have := i.2
    omega
  have hjb : j.1 < 100000 := by
    have := j.2
    omega
  have := mkSeqId_counter_inj kt1 kt2 i.1 j.1 nm1 nm2 hkt1 hkt2 hib hjb hmk
  have hlt : i.1 < j.1 := hij
  omega

/-- Witness for the amended C9 at a fully-populated document with one
element of each kind. -/
theorem fix_atIds_assigned_ids_nodup_witness :
    (renumberedIds (fix_atIds wFixDoc)).Nodup ∧
    (fix_atIds wFixDoc).provenanceData.map Prov.atId =
      wFixDoc.provenanceData.map Prov.atId :=
  fix_atIds_assigned_ids_nodup wFixDoc (by decide)

end OpenEra
